import Mathlib

/-!
# Receipt processor: the points rule engine

A shallow embedding of `main.go`: the `Receipt` data model, the seven scoring
rules and their aggregator `CalculatePoints`, the two `UnmarshalJSON` hooks for
the purchase date and time, and the handlers `PostReceipt` and `GetPoints` over
the receipt store, followed by theorems about them.

Modelling conventions

* Go `int` is `Int`; additions that can leave the 64-bit range (`+=` on values
  that come from a `float64`) go through `addInt`, which wraps modulo `2^64`.
  Counters bounded by the length of a string or slice are left unwrapped.
* Go `float64` is `F64`: every finite value is an integer multiple of
  `2^-1074`, and `F64.finite n` stands for `n * 2^-1074`.
* A Go `string` holding well-formed UTF-8 is a `String`: `range` visits its
  code points, `len` counts its UTF-8 bytes.
* `time.Time` is an instant (Unix seconds and nanoseconds) together with a
  fixed-offset location, over the proleptic Gregorian calendar.
* `time.Parse` is followed for the two layouts the program uses, `2006-01-02`
  and `15:04`, element by element as package `time` reads them (`getnum`,
  `daysIn`, the range checks and the check for extra text).
* The handlers pass the global `receiptMap` explicitly; what the gin context
  computes (the outcome of `BindJSON`, the path parameter) and the string of
  `uuid.New()` are inputs.
* Two things the Go language and library fix outside this repository are
  parameters: the Unicode range tables above Latin-1 (`UnicodeTables`) and the
  implementation-dependent result of converting an out-of-range `float64` to
  `int` (`indef`). Every theorem holds for all their values.
-/

namespace ReceiptProcessor

/-! ## Go `int` -/

/-- Smallest value of a 64-bit Go `int`. -/
def minInt64 : Int := -9223372036854775808

/-- Largest value of a 64-bit Go `int`. -/
def maxInt64 : Int := 9223372036854775807

/-- Reduction of an integer into the 64-bit two's-complement range. -/
def wrapInt64 (x : Int) : Int := (x + 9223372036854775808) % 18446744073709551616 - 9223372036854775808

/-- Go `a + b` on `int` (wraps on overflow). -/
def addInt (a b : Int) : Int := wrapInt64 (a + b)

/-! ## Go `float64` -/

/-- A `float64`. `finite n` is the real number `n * 2^-1074`; the sign of zero
is not represented, since no operation of the program observes it. -/
inductive F64 where
  | finite (units : Int)
  | inf (neg : Bool)
  | nan
deriving DecidableEq

namespace F64

/-- The number of units (multiples of `2^-1074`) in `1.0`. -/
def one : Int := ((2 ^ 1074 : Nat) : Int)

/-- The real value of a finite `float64`. -/
def toRat : F64 → Option ℚ
  | finite n => some ((n : ℚ) / (2 : ℚ) ^ 1074)
  | _ => none

/-- Least `k` at or above the start with `n < 2^(2^k)`. -/
def chunkLevel : Nat → Nat → Nat → Nat
  | 0, k, _ => k
  | fuel + 1, k, n => if n < 2 ^ 2 ^ k then k else chunkLevel fuel (k + 1) n

/-- Number of binary digits of `n`, for `n < 2^(2^k)`. -/
def bitLengthBelow : Nat → Nat → Nat
  | 0, n => if n = 0 then 0 else 1
  | k + 1, n =>
    if n < 2 ^ 2 ^ k then bitLengthBelow k n else 2 ^ k + bitLengthBelow k (n / 2 ^ 2 ^ k)

/-- Number of binary digits of `n`. -/
def bitLength (n : Nat) : Nat := bitLengthBelow (chunkLevel n 0 n) n

/-- The integer nearest to `a / b`, ties going to the even one. -/
def roundHalfEven (a b : Nat) : Nat :=
  let q := a / b
  let r := a % b
  if 2 * r < b then q else if b < 2 * r then q + 1 else if q % 2 = 0 then q else q + 1

/-- The number of units nearest to `a / b` that has at most 53 significant bits
(ties to even): below `2^53` units the spacing is one unit, which covers the
subnormal range and the first normal binade. -/
def roundMagnitude (a b : Nat) : Nat :=
  let shift := bitLength (a / b) - 53
  roundHalfEven a (b * 2 ^ shift) * 2 ^ shift

/-- IEEE 754 round-to-nearest-even of `p / q` units; overflows to an infinity
from `2^1024` (that is `2^2098` units) on. -/
def round (p : Int) (q : Nat) : F64 :=
  if q = 0 then nan
  else
    let m := roundMagnitude p.natAbs q
    if 2 ^ 2098 ≤ m then inf (decide (p < 0))
    else finite (if p < 0 then -(m : Int) else (m : Int))

/-- The `float64` a Go constant `num / den` converts to. -/
def ofFrac (num : Int) (den : Nat) : F64 := round (num * one) den

/-- Go `x * y` on `float64`. -/
def mul : F64 → F64 → F64
  | finite a, finite b => round (a * b) (2 ^ 1074)
  | finite a, inf s => if a = 0 then nan else inf (xor (decide (a < 0)) s)
  | inf s, finite b => if b = 0 then nan else inf (xor s (decide (b < 0)))
  | inf s, inf t => inf (xor s t)
  | _, _ => nan

/-- Go `x == y` on `float64`: NaN equals nothing. -/
def eq : F64 → F64 → Bool
  | finite a, finite b => decide (a = b)
  | inf s, inf t => s == t
  | _, _ => false

/-- Go `math.Mod(x, y)`: the exact remainder of `x / y`, of magnitude less than
`y` and with the sign of `x`; NaN when `y` is zero or `x` is infinite or either
is NaN; `x` itself when `y` is infinite. -/
def Mod : F64 → F64 → F64
  | finite x, finite y => if y = 0 then nan else finite (x.tmod y)
  | finite x, inf _ => finite x
  | _, _ => nan

/-- Go `math.Ceil(x)`: the least integer value not below `x`; infinities and NaN
are returned unchanged. -/
def Ceil : F64 → F64
  | finite n => finite (-((-n) / one) * one)
  | x => x

/-- Go `int(x)` for a `float64`: truncation toward zero when the result fits in
64 bits. Otherwise the language leaves the result to the implementation, which
is the parameter `indef` (reduced to 64 bits). -/
def toInt (indef : F64 → Int) : F64 → Int
  | finite n =>
    let t := n.tdiv one
    if minInt64 ≤ t ∧ t ≤ maxInt64 then t else wrapInt64 (indef (finite n))
  | x => wrapInt64 (indef x)

end F64

/-- The result of an out-of-range `int(x)` on amd64 (the "integer indefinite"
value), used to instantiate examples. -/
def amd64Indefinite : F64 → Int := fun _ => -9223372036854775808

/-! ## Go strings and the `unicode` package -/

/-- Upper end of the Latin-1 range, `unicode.MaxLatin1`. -/
def MaxLatin1 : Nat := 255

/-- The range tables `unicode.Letter` and `unicode.Digit` above Latin-1, by code
point. They belong to the Go standard library and are taken as given. -/
structure UnicodeTables where
  Letter : Nat → Bool
  Digit : Nat → Bool

/-- Letters of the Latin-1 range (the `pLmask` bits of `unicode.properties`). -/
def latin1Letter (c : Nat) : Bool :=
  (65 ≤ c && c ≤ 90) || (97 ≤ c && c ≤ 122) || c == 170 || c == 181 || c == 186 ||
  (192 ≤ c && c ≤ 214) || (216 ≤ c && c ≤ 246) || (248 ≤ c && c ≤ 255)

/-- Go `unicode.IsLetter`. -/
def IsLetter (u : UnicodeTables) (r : Char) : Bool :=
  if r.toNat ≤ MaxLatin1 then latin1Letter r.toNat else u.Letter r.toNat

/-- Go `unicode.IsDigit`. -/
def IsDigit (u : UnicodeTables) (r : Char) : Bool :=
  if r.toNat ≤ MaxLatin1 then (48 ≤ r.toNat && r.toNat ≤ 57) else u.Digit r.toNat

/-- Go `unicode.IsSpace`: the Unicode `White_Space` property. -/
def IsSpace (r : Char) : Bool :=
  let c := r.toNat
  (9 ≤ c && c ≤ 13) || c == 32 || c == 133 || c == 160 || c == 5760 ||
  (8192 ≤ c && c ≤ 8202) || c == 8232 || c == 8233 || c == 8239 || c == 8287 || c == 12288

/-- Go `strings.TrimSpace`: the string without its leading and trailing white space. -/
def TrimSpace (s : String) : String :=
  String.mk ((s.data.dropWhile IsSpace).rdropWhile IsSpace)

/-- Number of bytes in the UTF-8 encoding of a code point. -/
def runeLen (r : Char) : Nat :=
  if r.toNat < 128 then 1 else if r.toNat < 2048 then 2 else if r.toNat < 65536 then 3 else 4

/-- Go `len(s)` on a string: its length in bytes. -/
def len (s : String) : Int := ((s.data.map runeLen).sum : Nat)

/-! ## Go `time.Time` -/

/-- A `*time.Location` with a fixed offset, in seconds east of UTC. -/
structure Location where
  offset : Int
deriving DecidableEq

/-- Go `time.UTC`. -/
def UTC : Location := ⟨0⟩

/-- A `time.Time`: an instant, as seconds and nanoseconds since the Unix epoch,
and the location it is presented in. -/
structure Time where
  sec : Int
  nsec : Nat
  loc : Location
deriving DecidableEq

/-- The helper `isLeap` of package `time`. -/
def isLeap (year : Int) : Bool :=
  decide (year % 4 = 0) && (decide (year % 100 ≠ 0) || decide (year % 400 = 0))

/-- The table `daysBefore` of package `time`: `daysBefore m` is the number of
days of a non-leap year that come before month `m + 1`. -/
def daysBefore (m : Int) : Int :=
  if m = 0 then 0 else if m = 1 then 31 else if m = 2 then 59 else if m = 3 then 90
  else if m = 4 then 120 else if m = 5 then 151 else if m = 6 then 181
  else if m = 7 then 212 else if m = 8 then 243 else if m = 9 then 273
  else if m = 10 then 304 else if m = 11 then 334 else 365

/-- First half of the helper `absDate` of package `time`: the year and the day
within the year (from 0) of a day number counted from 0001-01-01, by cutting
off 400-year, 100-year, 4-year and 1-year cycles. -/
def yearDay (d : Int) : Int × Int :=
  let n400 := d / 146097
  let d1 := d - 146097 * n400
  let n100 := d1 / 36524 - d1 / 36524 / 4
  let d2 := d1 - 36524 * n100
  let n4 := d2 / 1461
  let d3 := d2 - 1461 * n4
  let n1 := d3 / 365 - d3 / 365 / 4
  let yday := d3 - 365 * n1
  (400 * n400 + 100 * n100 + 4 * n4 + n1 + 1, yday)

/-- Second half of the helper `absDate`: the month and the day of the month of
a day within a year. -/
def monthDay (leap : Bool) (yday : Int) : Int × Int :=
  if leap && decide (yday = 59) then (2, 29)
  else
    let day := if leap && decide (59 < yday) then yday - 1 else yday
    let month := day / 31
    let monthEnd := daysBefore (month + 1)
    if monthEnd ≤ day then (month + 2, day - monthEnd + 1)
    else (month + 1, day - daysBefore month + 1)

/-- The helper `absDate` of package `time`: the (year, month, day) of a day
number counted from 0001-01-01. -/
def absDate (d : Int) : Int × Int × Int :=
  let yd := yearDay d
  let md := monthDay (isLeap yd.1) yd.2
  (yd.1, md.1, md.2)

/-- The helper `daysSinceEpoch` of package `time`: the day number of January 1
of a year, counted from 0001-01-01. -/
def daysSinceEpoch (year : Int) : Int :=
  let y := year - 1
  let n400 := y / 400
  let y1 := y - 400 * n400
  let n100 := y1 / 100
  let y2 := y1 - 100 * n100
  let n4 := y2 / 4
  let y3 := y2 - 4 * n4
  146097 * n400 + 36524 * n100 + 1461 * n4 + 365 * y3

/-- Seconds from 0001-01-01 to the Unix epoch (`unixToInternal` of package `time`). -/
def unixToInternal : Int := 62135596800

namespace Time

/-- The helper `abs` of package `time`: seconds since 0001-01-01 on the wall
clock of the time's location. -/
def abs (t : Time) : Int := t.sec + t.loc.offset + unixToInternal

/-- Go `t.Year()`. -/
def Year (t : Time) : Int := (absDate (t.abs / 86400)).1

/-- Go `t.Month()`. -/
def Month (t : Time) : Int := (absDate (t.abs / 86400)).2.1

/-- Go `t.Day()`. -/
def Day (t : Time) : Int := (absDate (t.abs / 86400)).2.2

/-- Go `t.Hour()`. -/
def Hour (t : Time) : Int := t.abs % 86400 / 3600

/-- Go `t.Minute()`. -/
def Minute (t : Time) : Int := t.abs % 3600 / 60

/-- Go `t.Second()`. -/
def Second (t : Time) : Int := t.abs % 60

/-- Go `t.Nanosecond()`. -/
def Nanosecond (t : Time) : Int := t.nsec

/-- Go `t.Location()`. -/
def Location (t : Time) : ReceiptProcessor.Location := t.loc

/-- Go `t.After(u)`: the instant `t` is later than `u`. -/
def After (t u : Time) : Bool :=
  decide (u.sec < t.sec) || (decide (t.sec = u.sec) && decide (u.nsec < t.nsec))

/-- Go `t.Before(u)`: the instant `t` is earlier than `u`. -/
def Before (t u : Time) : Bool :=
  decide (t.sec < u.sec) || (decide (t.sec = u.sec) && decide (t.nsec < u.nsec))

end Time

/-- The helper `norm` of package `time`: carries `lo` into `hi` so that `lo`
lands in `[0, base)`. -/
def norm (hi lo base : Int) : Int × Int := (hi + lo / base, lo % base)

/-- Go `time.Date`: the time of the given wall-clock reading in `loc`; values
outside their usual ranges are normalised. -/
def Date (year month day hour min sec nsec : Int) (loc : Location) : Time :=
  let ym := norm year (month - 1) 12
  let sn := norm sec nsec 1000000000
  let ms := norm min sn.1 60
  let hm := norm hour ms.1 60
  let dh := norm day hm.1 24
  let d := daysSinceEpoch ym.1 + daysBefore ym.2 +
    (if isLeap ym.1 && decide (3 ≤ ym.2 + 1) then 1 else 0) + (dh.1 - 1)
  ⟨d * 86400 + dh.2 * 3600 + hm.2 * 60 + ms.2 - unixToInternal - loc.offset, sn.2.toNat, loc⟩

/-! ## The receipt model (`main.go`, lines 15-30) -/

/-- Go `type Item struct`. -/
structure Item where
  ShortDescription : String
  Price : F64

/-- Go `type Receipt struct`. `Items` is a slice: `none` is the nil slice. -/
structure Receipt where
  Retailer : String
  PurchaseDate : Time
  PurchaseTime : Time
  Items : Option (List Item)
  Total : F64

/-! ## The seven rules and their sum (`main.go`, lines 70-161) -/

/-- Rule 1 (`main.go` 90-101): one point for each letter or digit of the retailer name. -/
def CalculateRetailerNamePoints (u : UnicodeTables) (receipt : Receipt) : Int :=
  if receipt.Retailer ≠ "" then
    receipt.Retailer.data.foldl
      (fun count char => if IsLetter u char || IsDigit u char then count + 1 else count) 0
  else 0

/-- Rule 2 (`main.go` 103-109): 50 points when `math.Mod(total, 1) == 0`. -/
def AddRoundDollarPoints (receipt : Receipt) : Int :=
  if F64.eq (F64.Mod receipt.Total (F64.ofFrac 1 1)) (F64.ofFrac 0 1) then 50 else 0

/-- Rule 3 (`main.go` 111-117): 25 points when `math.Mod(total, 0.25) == 0`. -/
def AddQuarterDollarPoints (receipt : Receipt) : Int :=
  if F64.eq (F64.Mod receipt.Total (F64.ofFrac 1 4)) (F64.ofFrac 0 1) then 25 else 0

/-- Rule 4 (`main.go` 119-125): 5 points for every two items. -/
def CalculatePurchaseItemsPoints (receipt : Receipt) : Int :=
  match receipt.Items with
  | some items => (items.length : Int) / 2 * 5
  | none => 0

/-- The body of the loop of rule 5 (`main.go` 132-136): the new value of
`earnedPoints` after one item. -/
def itemDescriptionStep (indef : F64 → Int) (earnedPoints : Int) (item : Item) : Int :=
  if item.ShortDescription ≠ "" then
    if len (TrimSpace item.ShortDescription) % 3 = 0 then
      addInt earnedPoints (F64.toInt indef (F64.Ceil (F64.mul item.Price (F64.ofFrac 1 5))))
    else earnedPoints
  else earnedPoints

/-- Rule 5 (`main.go` 127-140): points for items whose trimmed description has a
length that is a multiple of 3. -/
def CalculateItemDescriptionPoints (indef : F64 → Int) (receipt : Receipt) : Int :=
  match receipt.Items with
  | some items => items.foldl (itemDescriptionStep indef) 0
  | none => 0

/-- Rule 6 (`main.go` 142-149): 6 points when the day of the purchase date is odd. -/
def AddOddPurchaseDayPoints (receipt : Receipt) : Int :=
  let day := receipt.PurchaseDate.Day
  if day % 2 ≠ 0 then 6 else 0

/-- Rule 7 (`main.go` 151-161): 10 points when the purchase time is after 2:00pm
and before 4:00pm of its own day. -/
def AddPurchaseTimePoints (receipt : Receipt) : Int :=
  let purTime := receipt.PurchaseTime
  let startTime := Date purTime.Year purTime.Month purTime.Day 14 0 0 0 purTime.Location
  let endTime := Date purTime.Year purTime.Month purTime.Day 16 0 0 0 purTime.Location
  if purTime.After startTime && purTime.Before endTime then 10 else 0

/-- The aggregator (`main.go` 70-88): the seven rules added up in source order. -/
def CalculatePoints (u : UnicodeTables) (indef : F64 → Int) (receipt : Receipt) : Int :=
  let pointsRewarded := 0
  let pointsRewarded := addInt pointsRewarded (CalculateRetailerNamePoints u receipt)
  let pointsRewarded := addInt pointsRewarded (AddRoundDollarPoints receipt)
  let pointsRewarded := addInt pointsRewarded (AddQuarterDollarPoints receipt)
  let pointsRewarded := addInt pointsRewarded (CalculatePurchaseItemsPoints receipt)
  let pointsRewarded := addInt pointsRewarded (CalculateItemDescriptionPoints indef receipt)
  let pointsRewarded := addInt pointsRewarded (AddOddPurchaseDayPoints receipt)
  let pointsRewarded := addInt pointsRewarded (AddPurchaseTimePoints receipt)
  pointsRewarded


/-- The points one item adds to rule 5: the increment that the loop body
(`main.go` 132-136) applies to `earnedPoints`, read off at `earnedPoints = 0`. -/
def itemDescriptionPoints (indef : F64 → Int) (item : Item) : Int :=
  itemDescriptionStep indef 0 item

/-- The decidable test "`x` is finite and `lo ≤ x ≤ hi`" for whole numbers `lo`, `hi`. -/
def F64.between (lo hi : Int) : F64 → Bool
  | F64.finite n => decide (lo * F64.one ≤ n) && decide (n ≤ hi * F64.one)
  | _ => false

/-! ## Example data -/

/-- Range tables with no entry above Latin-1, for running the rules on names
written in Latin-1, where the tables are not consulted. -/
def latin1Tables : UnicodeTables := ⟨fun _ => false, fun _ => false⟩

/-- The first receipt of `ReceiptsforTesting` (`main_test.go`, lines 20-30). -/
def testReceipt0 : Receipt :=
  { Retailer := "ABC Supermarket"
    PurchaseDate := Date 2023 1 1 15 0 0 0 UTC
    PurchaseTime := Date 2023 1 1 15 0 0 0 UTC
    Items := some [⟨"Item 1", F64.ofFrac 999 100⟩, ⟨"Item 2", F64.ofFrac 599 100⟩,
      ⟨"", F64.ofFrac 349 100⟩]
    Total := F64.ofFrac 1947 100 }

/-- The receipt that the payload
`{"retailer": "", "purchaseDate": "2023-01-02", "purchaseTime": "17:00",
"items": [{"shortDescription": "abc", "price": "-10.00"}], "total": "0.10"}`
parses to: one item with a negative price. -/
def negativePriceReceipt : Receipt :=
  { Retailer := ""
    PurchaseDate := Date 2023 1 2 0 0 0 0 UTC
    PurchaseTime := Date 0 1 1 17 0 0 0 UTC
    Items := some [⟨"abc", F64.ofFrac (-1000) 100⟩]
    Total := F64.ofFrac 10 100 }

/-! ## Parsing the date and time fields (`main.go`, lines 163-182) -/

/-- Go `strings.Trim(s, cutset)`: `s` without its leading and trailing code
points that occur in `cutset`. -/
def Trim (s cutset : String) : String :=
  String.mk ((s.data.dropWhile (fun c => cutset.data.contains c)).rdropWhile
    (fun c => cutset.data.contains c))

/-- The value of a decimal digit (the helper `isDigit` of package `time`
together with `c - '0'`). -/
def digitValue (c : Char) : Option Int :=
  if 48 ≤ c.toNat ∧ c.toNat ≤ 57 then some ((c.toNat : Int) - 48) else none

/-- The helper `getnum` of package `time`: the number written by the first two
digits of the input, or by its first digit alone when no second digit follows
and `fixed` is false, together with the rest of the input. -/
def getnum (s : List Char) (fixed : Bool) : Option (Int × List Char) :=
  match s with
  | [] => none
  | c0 :: rest =>
    match digitValue c0 with
    | none => none
    | some d0 =>
      match rest with
      | [] => if fixed then none else some (d0, rest)
      | c1 :: rest1 =>
        match digitValue c1 with
        | none => if fixed then none else some (d0, rest)
        | some d1 => some (d0 * 10 + d1, rest1)

/-- The layout element `2006` of `time.Parse`: exactly four digits. -/
def getyear (s : List Char) : Option (Int × List Char) :=
  match s with
  | c0 :: c1 :: c2 :: c3 :: rest =>
    match digitValue c0, digitValue c1, digitValue c2, digitValue c3 with
    | some d0, some d1, some d2, some d3 => some (d0 * 1000 + d1 * 100 + d2 * 10 + d3, rest)
    | _, _, _, _ => none
  | _ => none

/-- A literal character of a layout: the input must start with it. -/
def skipChar (c : Char) (s : List Char) : Option (List Char) :=
  match s with
  | [] => none
  | x :: rest => if x = c then some rest else none

/-- The helper `daysIn` of package `time`: the number of days of a month. -/
def daysIn (month year : Int) : Int :=
  if month = 2 ∧ isLeap year = true then 29 else daysBefore month - daysBefore (month - 1)

/-- Go `time.Parse("2006-01-02", value)`: four digits of year, `-`, two digits
of month, `-`, two digits of day and nothing else; the month must be in 1..12
and the day must exist in that month. The time is midnight UTC of that day. -/
def parseDate (value : String) : Option Time :=
  match getyear value.data with
  | none => none
  | some (year, v1) =>
    match skipChar '-' v1 with
    | none => none
    | some v2 =>
      match getnum v2 true with
      | none => none
      | some (month, v3) =>
        if month ≤ 0 ∨ 12 < month then none
        else
          match skipChar '-' v3 with
          | none => none
          | some v4 =>
            match getnum v4 true with
            | none => none
            | some (day, v5) =>
              if v5 ≠ [] then none
              else if day < 1 ∨ daysIn month year < day then none
              else some (Date year month day 0 0 0 0 UTC)

/-- Go `time.Parse("15:04", value)`: one or two digits of hour, `:`, two digits
of minute and nothing else; the hour must be below 24 and the minute below 60.
The time is that clock reading on January 1 of year 0, UTC. -/
def parseClock (value : String) : Option Time :=
  match getnum value.data false with
  | none => none
  | some (hour, v1) =>
    if hour < 0 ∨ 24 ≤ hour then none
    else
      match skipChar ':' v1 with
      | none => none
      | some v2 =>
        match getnum v2 true with
        | none => none
        | some (min, v3) =>
          if min < 0 ∨ 60 ≤ min then none
          else if v3 ≠ [] then none
          else some (Date 0 1 1 hour min 0 0 UTC)

/-- Go `type ReceiptPurchaseDate time.Time`. -/
abbrev ReceiptPurchaseDate := Time

/-- Go `type ReceiptPurchaseTime time.Time`. -/
abbrev ReceiptPurchaseTime := Time

deriving instance DecidableEq for Except

/-- The method `(*ReceiptPurchaseDate).UnmarshalJSON` (`main.go` 164-172): the new
value of the receiver, or the error. Of the error text only the part written in
`main.go` is kept; the text of the wrapped `time.Parse` error is left out. -/
def ReceiptPurchaseDate.UnmarshalJSON (b : String) : Except String ReceiptPurchaseDate :=
  let trimmedDateString := Trim b "\""
  match parseDate trimmedDateString with
  | none => Except.error "failed to parse ReceiptPurchaseDate"
  | some formattedDate => Except.ok formattedDate

/-- The method `(*ReceiptPurchaseTime).UnmarshalJSON` (`main.go` 174-182): the new
value of the receiver, or the error. Of the error text only the part written in
`main.go` is kept; the text of the wrapped `time.Parse` error is left out. -/
def ReceiptPurchaseTime.UnmarshalJSON (b : String) : Except String ReceiptPurchaseTime :=
  let s := Trim b "\""
  match parseClock s with
  | none => Except.error "failed to parse ReceiptPurchaseTime"
  | some formattedTime => Except.ok formattedTime

/-! ## The handlers and the receipt store (`main.go`, lines 32-68) -/

/-- The global `receiptMap` (`main.go` 33), a Go `map[string]Receipt`. -/
abbrev ReceiptMap := String → Option Receipt

/-- The body `gin.H` that a handler writes with `c.JSON`. -/
inductive Body where
  | error (message : String)
  | id (receiptId : String)
  | points (points : Int)

/-- What a handler writes with `c.JSON`: the status code and the body. -/
structure Response where
  status : Nat
  body : Body

/-- Go `http.StatusOK`. -/
def StatusOK : Nat := 200

/-- Go `http.StatusBadRequest`. -/
def StatusBadRequest : Nat := 400

/-- What the handlers read from their `*gin.Context`: the outcome of
`c.BindJSON(&receipt)` on the request body (the decoded receipt, or the text of
the error) and the path parameter `c.Param("id")`. Both are computed by the gin
framework and are taken as given. -/
structure Context where
  BindJSON : Except String Receipt
  Param : String

/-- The handler `PostReceipt` (`main.go` 45-57): the response written and the
new value of `receiptMap`. `receiptId` is the string that `uuid.New().String()`
returns in this call. -/
def PostReceipt (receiptId : String) (c : Context) (receiptMap : ReceiptMap) :
    Response × ReceiptMap :=
  match c.BindJSON with
  | Except.error err => (⟨StatusBadRequest, Body.error err⟩, receiptMap)
  | Except.ok receipt =>
    (⟨StatusOK, Body.id receiptId⟩,
      fun key => if key = receiptId then some receipt else receiptMap key)

/-- The handler `GetPoints` (`main.go` 59-68): the response written and the value
of `receiptMap` afterwards. -/
def GetPoints (u : UnicodeTables) (indef : F64 → Int) (c : Context) (receiptMap : ReceiptMap) :
    Response × ReceiptMap :=
  let receiptId := c.Param
  match receiptMap receiptId with
  | some receipt =>
    let points := CalculatePoints u indef receipt
    (⟨StatusOK, Body.points points⟩, receiptMap)
  | none => (⟨StatusBadRequest, Body.error "Invalid ID"⟩, receiptMap)

/-! ## The literals of the specification -/

/-- The number written by a list of decimal digits; `none` when a character is
not a digit. -/
def decimal (cs : List Char) : Option Int :=
  cs.foldl (fun acc c =>
    match acc, digitValue c with
    | some n, some d => some (n * 10 + d)
    | _, _ => none) (some 0)

/-- The Gregorian leap-year rule: every fourth year, except the centuries that
are not multiples of 400. -/
def leapYear (year : Int) : Bool :=
  (decide (year % 4 = 0) && decide (year % 100 ≠ 0)) || decide (year % 400 = 0)

/-- The number of days of a month of the calendar (0 for a month outside 1..12). -/
def calendarDays (year month : Int) : Int :=
  if month = 1 ∨ month = 3 ∨ month = 5 ∨ month = 7 ∨ month = 8 ∨ month = 10 ∨ month = 12 then 31
  else if month = 4 ∨ month = 6 ∨ month = 9 ∨ month = 11 then 30
  else if month = 2 then (if leapYear year = true then 29 else 28)
  else 0

/-- The year, month and day of a string that is exactly a `YYYY-MM-DD` literal
naming a real calendar date: four digits, `-`, two digits, `-`, two digits, the
month in 1..12 and the day among the days of that month. -/
def readDateLiteral (s : String) : Option (Int × Int × Int) :=
  match s.data with
  | [y1, y2, y3, y4, sep1, m1, m2, sep2, d1, d2] =>
    match decimal [y1, y2, y3, y4], decimal [m1, m2], decimal [d1, d2] with
    | some year, some month, some day =>
      if sep1 = '-' ∧ sep2 = '-' ∧ 1 ≤ month ∧ month ≤ 12 ∧ 1 ≤ day ∧
          day ≤ calendarDays year month then some (year, month, day)
      else none
    | _, _, _ => none
  | _ => none

/-- The hour and minute of a string that is exactly a 24-hour `HH:MM` literal:
two digits, a colon, two digits, the hour in 00..23 and the minute in 00..59. -/
def readHHMM (s : String) : Option (Int × Int) :=
  match s.data with
  | [h1, h2, sep, m1, m2] =>
    match decimal [h1, h2], decimal [m1, m2] with
    | some hour, some min =>
      if sep = ':' ∧ hour ≤ 23 ∧ min ≤ 59 then some (hour, min) else none
    | _, _ => none
  | _ => none

/-- The hour and minute of a string that is an `HH:MM` literal or the same with
a one-digit hour (`H:MM`): one or two digits, a colon, two digits, the hour in
0..23 and the minute in 00..59. -/
def readClockLiteral (s : String) : Option (Int × Int) :=
  match s.data with
  | [h1, sep, m1, m2] =>
    match decimal [h1], decimal [m1, m2] with
    | some hour, some min => if sep = ':' ∧ min ≤ 59 then some (hour, min) else none
    | _, _ => none
  | _ => readHHMM s

/-! ## Go `int` arithmetic -/

theorem wrapInt64_of_range {x : Int} (h1 : minInt64 ≤ x) (h2 : x ≤ maxInt64) : wrapInt64 x = x := by
  unfold wrapInt64; unfold minInt64 at h1; unfold maxInt64 at h2; omega

theorem wrapInt64_range (x : Int) : minInt64 ≤ wrapInt64 x ∧ wrapInt64 x ≤ maxInt64 := by
  unfold wrapInt64 minInt64 maxInt64; omega

theorem wrapInt64_add_left (a b : Int) : wrapInt64 (wrapInt64 a + b) = wrapInt64 (a + b) := by
  unfold wrapInt64; omega

theorem wrapInt64_idem (a : Int) : wrapInt64 (wrapInt64 a) = wrapInt64 a := by
  unfold wrapInt64; omega

/-- Folding Go addition over a list gives the wrapped sum. -/
theorem foldl_addInt (l : List Int) (a : Int) :
    l.foldl addInt (wrapInt64 a) = wrapInt64 (a + l.sum) := by
  induction l generalizing a with
  | nil => simp
  | cons x xs ih =>
    simp only [List.foldl_cons, List.sum_cons, addInt, wrapInt64_add_left]
    rw [ih, add_assoc]

/-- C1: `CalculatePoints` returns the sum of the seven rule values, each evaluated
on its own on the same receipt, and adding the seven values in any order gives
the same result. The additions are Go `int` additions: the result is the sum
reduced to 64 bits, and it is the exact integer sum whenever that fits. -/
theorem C1_CalculatePoints_is_sum (u : UnicodeTables) (indef : F64 → Int) (r : Receipt) :
    CalculatePoints u indef r =
        wrapInt64 (CalculateRetailerNamePoints u r + AddRoundDollarPoints r +
          AddQuarterDollarPoints r + CalculatePurchaseItemsPoints r +
          CalculateItemDescriptionPoints indef r + AddOddPurchaseDayPoints r +
          AddPurchaseTimePoints r)
    ∧ (∀ order : List Int,
        order.Perm [CalculateRetailerNamePoints u r, AddRoundDollarPoints r,
          AddQuarterDollarPoints r, CalculatePurchaseItemsPoints r,
          CalculateItemDescriptionPoints indef r, AddOddPurchaseDayPoints r,
          AddPurchaseTimePoints r] →
        order.foldl addInt 0 = CalculatePoints u indef r)
    ∧ (minInt64 ≤ CalculateRetailerNamePoints u r + AddRoundDollarPoints r +
          AddQuarterDollarPoints r + CalculatePurchaseItemsPoints r +
          CalculateItemDescriptionPoints indef r + AddOddPurchaseDayPoints r +
          AddPurchaseTimePoints r ∧
        CalculateRetailerNamePoints u r + AddRoundDollarPoints r +
          AddQuarterDollarPoints r + CalculatePurchaseItemsPoints r +
          CalculateItemDescriptionPoints indef r + AddOddPurchaseDayPoints r +
          AddPurchaseTimePoints r ≤ maxInt64 →
        CalculatePoints u indef r =
          CalculateRetailerNamePoints u r + AddRoundDollarPoints r +
          AddQuarterDollarPoints r + CalculatePurchaseItemsPoints r +
          CalculateItemDescriptionPoints indef r + AddOddPurchaseDayPoints r +
          AddPurchaseTimePoints r) := by
  have hsum : CalculatePoints u indef r =
      wrapInt64 (CalculateRetailerNamePoints u r + AddRoundDollarPoints r +
          AddQuarterDollarPoints r + CalculatePurchaseItemsPoints r +
          CalculateItemDescriptionPoints indef r + AddOddPurchaseDayPoints r +
          AddPurchaseTimePoints r) := by
    simp only [CalculatePoints, addInt, wrapInt64_add_left, zero_add]
  refine ⟨hsum, ?_, ?_⟩
  · intro order hperm
    have h0 : (0 : Int) = wrapInt64 0 := by unfold wrapInt64; omega
    rw [h0, foldl_addInt, hperm.sum_eq, hsum]
    simp only [List.sum_cons, List.sum_nil, zero_add, add_zero, add_assoc]
  · rintro ⟨h1, h2⟩
    rw [hsum, wrapInt64_of_range h1 h2]

/-! ## `float64` facts -/

theorem F64.one_pos : 0 < F64.one := by
  unfold F64.one; positivity

set_option exponentiation.threshold 5000 in
theorem F64.one_cast : ((F64.one : Int) : ℚ) = (2 : ℚ) ^ 1074 := by
  unfold F64.one; norm_num

set_option exponentiation.threshold 5000 in
/-- The quarter of a unit of `1.0`, in units. -/
theorem F64.quarter_mul : (4 : Int) * ((2 ^ 1072 : Nat) : Int) = F64.one := by
  unfold F64.one; norm_num

set_option exponentiation.threshold 5000 in
theorem F64.ofFrac_zero : F64.ofFrac 0 1 = F64.finite 0 := by decide

set_option exponentiation.threshold 5000 in
theorem F64.ofFrac_one : F64.ofFrac 1 1 = F64.finite F64.one := by decide

set_option exponentiation.threshold 5000 in
theorem F64.ofFrac_quarter : F64.ofFrac 1 4 = F64.finite ((2 ^ 1072 : Nat) : Int) := by decide

/-- The test `math.Mod(x, d) == 0` holds exactly for the finite multiples of `d`. -/
theorem F64.mod_eq_zero_iff (x : F64) (d : Int) (hd : 0 < d) :
    F64.eq (F64.Mod x (F64.finite d)) (F64.finite 0) = true ↔ ∃ n, x = F64.finite n ∧ d ∣ n := by
  have hd0 : d ≠ 0 := ne_of_gt hd
  cases x with
  | finite n =>
    simp only [F64.Mod, hd0, if_false, F64.eq, decide_eq_true_eq, F64.finite.injEq]
    constructor
    · intro h; exact ⟨n, rfl, Int.dvd_of_tmod_eq_zero h⟩
    · rintro ⟨m, rfl, h⟩; exact Int.tmod_eq_zero_of_dvd h
  | inf s => simp [F64.Mod, F64.eq]
  | nan => simp [F64.Mod, F64.eq]

/-- A finite value is a whole number exactly when it is a multiple of `1.0`. -/
theorem F64.isInt_iff (x : F64) :
    (∃ n, x = F64.finite n ∧ F64.one ∣ n) ↔ ∃ k : ℤ, F64.toRat x = some (k : ℚ) := by
  have hpos : (0 : ℚ) < (2 : ℚ) ^ 1074 := by positivity
  constructor
  · rintro ⟨n, rfl, k, rfl⟩
    refine ⟨k, ?_⟩
    simp only [F64.toRat, Option.some.injEq]
    push_cast
    rw [F64.one_cast]
    field_simp
  · rintro ⟨k, hk⟩
    cases x with
    | finite n =>
      simp only [F64.toRat, Option.some.injEq] at hk
      refine ⟨n, rfl, k, ?_⟩
      have h : (n : ℚ) = ((F64.one * k : Int) : ℚ) := by
        push_cast
        rw [F64.one_cast]
        field_simp at hk
        linarith
      exact_mod_cast h
    | inf s => simp [F64.toRat] at hk
    | nan => simp [F64.toRat] at hk

set_option exponentiation.threshold 5000 in
/-- A finite value is a multiple of `0.25` exactly when it is a multiple of `2^1072` units. -/
theorem F64.isQuarter_iff (x : F64) :
    (∃ n, x = F64.finite n ∧ ((2 ^ 1072 : Nat) : Int) ∣ n) ↔
      ∃ k : ℤ, F64.toRat x = some ((k : ℚ) / 4) := by
  have hpos : (0 : ℚ) < (2 : ℚ) ^ 1074 := by positivity
  have hq : (4 : ℚ) * (((2 ^ 1072 : Nat) : Int) : ℚ) = (2 : ℚ) ^ 1074 := by
    rw [← F64.one_cast, ← F64.quarter_mul]; push_cast; ring
  constructor
  · rintro ⟨n, rfl, k, rfl⟩
    refine ⟨k, ?_⟩
    simp only [F64.toRat, Option.some.injEq]
    rw [← hq]
    push_cast
    field_simp
    ring
  · rintro ⟨k, hk⟩
    cases x with
    | finite n =>
      simp only [F64.toRat, Option.some.injEq] at hk
      refine ⟨n, rfl, k, ?_⟩
      have h : (n : ℚ) = ((((2 ^ 1072 : Nat) : Int) * k : Int) : ℚ) := by
        rw [← hq] at hk
        have h4 : (n : ℚ) = (k : ℚ) / 4 * (4 * (((2 ^ 1072 : Nat) : Int) : ℚ)) := by
          rw [← hk]; field_simp
        rw [h4]; push_cast; ring
      exact_mod_cast h
    | inf s => simp [F64.toRat] at hk
    | nan => simp [F64.toRat] at hk

/-! ## Rule 1: retailer name -/

/-- The counting loop of rule 1 adds the number of matching code points to its start value. -/
theorem foldl_count (p : Char → Bool) (l : List Char) (a : Int) :
    l.foldl (fun count char => if p char then count + 1 else count) a = a + (l.countP p : Nat) := by
  induction l generalizing a with
  | nil => simp
  | cons c cs ih =>
    rw [List.foldl_cons, ih, List.countP_cons]
    by_cases h : p c = true
    · simp only [h, if_true]; push_cast; ring
    · simp only [h, if_false]; push_cast; ring

/-- Rule 1 as a count over the code points of a retailer name. -/
theorem retailerPoints_eq_count (u : UnicodeTables) (r : Receipt) :
    CalculateRetailerNamePoints u r =
      (r.Retailer.data.countP (fun c => IsLetter u c || IsDigit u c) : Nat) := by
  unfold CalculateRetailerNamePoints
  by_cases h : r.Retailer = ""
  · simp [h]
  · rw [if_pos h, foldl_count]; simp

/-- C6: `CalculateRetailerNamePoints` is the number of code points of the retailer
name that are Unicode letters or digits: each such code point adds 1, any other
adds 0 (ASCII characters outside `0-9`, `A-Z`, `a-z`, such as the space and `&`,
are neither), the empty name gives 0, "ABC Supermarket" gives 14 and
"Barnes & Noble 60131" gives 16. -/
theorem C6_CalculateRetailerNamePoints_counts_alnum (u : UnicodeTables) (r : Receipt) :
    CalculateRetailerNamePoints u r =
        (r.Retailer.data.countP (fun c => IsLetter u c || IsDigit u c) : Nat)
    ∧ (∀ (c : Char) (s : String), r.Retailer = String.mk (c :: s.data) →
        CalculateRetailerNamePoints u r =
          (if IsLetter u c || IsDigit u c then 1 else 0) +
            CalculateRetailerNamePoints u { r with Retailer := s })
    ∧ (∀ c : Char, c.toNat < 128 → ¬ (48 ≤ c.toNat ∧ c.toNat ≤ 57) →
        ¬ (65 ≤ c.toNat ∧ c.toNat ≤ 90) → ¬ (97 ≤ c.toNat ∧ c.toNat ≤ 122) →
        (IsLetter u c || IsDigit u c) = false)
    ∧ (r.Retailer = "" → CalculateRetailerNamePoints u r = 0)
    ∧ (r.Retailer = "ABC Supermarket" → CalculateRetailerNamePoints u r = 14)
    ∧ (r.Retailer = "Barnes & Noble 60131" → CalculateRetailerNamePoints u r = 16) := by
  refine ⟨retailerPoints_eq_count u r, ?_, ?_, ?_, ?_, ?_⟩
  · intro c s h
    rw [retailerPoints_eq_count, retailerPoints_eq_count, h]
    simp only [List.countP_cons]
    by_cases hc : (IsLetter u c || IsDigit u c) = true
    · simp only [hc, if_true]; push_cast; ring
    · simp only [hc, if_false]; push_cast; ring
  · intro c h1 h2 h3 h4
    have hl : c.toNat ≤ MaxLatin1 := by unfold MaxLatin1; omega
    simp only [IsLetter, IsDigit, hl, if_true, latin1Letter, Bool.or_eq_false_iff,
      Bool.and_eq_false_imp, decide_eq_true_eq, decide_eq_false_iff_not, beq_eq_false_iff_ne]
    omega
  · intro h
    simp [CalculateRetailerNamePoints, h]
  · intro h
    simp only [CalculateRetailerNamePoints, h]
    rfl
  · intro h
    simp only [CalculateRetailerNamePoints, h]
    rfl

/-! ## Rule 4: item count -/

/-- C10: for a receipt with `n` items, `CalculatePurchaseItemsPoints` returns
`floor(n / 2) * 5`, with `n = 0` when the item list is absent; 3 items give 5,
2 items give 5 and no items give 0. -/
theorem C10_CalculatePurchaseItemsPoints_floor (r : Receipt) :
    CalculatePurchaseItemsPoints r = (((r.Items.getD []).length / 2 * 5 : Nat) : Int)
    ∧ (r.Items = none → CalculatePurchaseItemsPoints r = 0)
    ∧ (r.Items = some [] → CalculatePurchaseItemsPoints r = 0)
    ∧ (∀ a b, r.Items = some [a, b] → CalculatePurchaseItemsPoints r = 5)
    ∧ (∀ a b c, r.Items = some [a, b, c] → CalculatePurchaseItemsPoints r = 5) := by
  refine ⟨?_, ?_, ?_, ?_, ?_⟩
  · unfold CalculatePurchaseItemsPoints
    cases r.Items with
    | none => simp
    | some items => simp only [Option.getD_some]; push_cast; rfl
  · intro h; simp [CalculatePurchaseItemsPoints, h]
  · intro h; simp [CalculatePurchaseItemsPoints, h]
  · intro a b h; simp [CalculatePurchaseItemsPoints, h]
  · intro a b c h; simp only [CalculatePurchaseItemsPoints, h, List.length_cons, List.length_nil]; norm_num

/-! ## Rules 2 and 3: round-dollar and quarter-dollar totals -/

/-- Rule 2 fires on the finite totals that are multiples of `1.0`. -/
theorem roundDollar_pos (r : Receipt) (h : ∃ n, r.Total = F64.finite n ∧ F64.one ∣ n) :
    AddRoundDollarPoints r = 50 := by
  unfold AddRoundDollarPoints
  rw [F64.ofFrac_one, F64.ofFrac_zero, if_pos ((F64.mod_eq_zero_iff _ _ F64.one_pos).2 h)]

/-- Rule 2 does not fire on any other total. -/
theorem roundDollar_neg (r : Receipt) (h : ¬ ∃ n, r.Total = F64.finite n ∧ F64.one ∣ n) :
    AddRoundDollarPoints r = 0 := by
  unfold AddRoundDollarPoints
  rw [F64.ofFrac_one, F64.ofFrac_zero,
    if_neg (fun hc => h ((F64.mod_eq_zero_iff _ _ F64.one_pos).1 hc))]

/-- Rule 3 fires on the finite totals that are multiples of `0.25`. -/
theorem quarterDollar_pos (r : Receipt)
    (h : ∃ n, r.Total = F64.finite n ∧ ((2 ^ 1072 : Nat) : Int) ∣ n) :
    AddQuarterDollarPoints r = 25 := by
  have hpos : (0 : Int) < ((2 ^ 1072 : Nat) : Int) := by positivity
  unfold AddQuarterDollarPoints
  rw [F64.ofFrac_quarter, F64.ofFrac_zero, if_pos ((F64.mod_eq_zero_iff _ _ hpos).2 h)]

/-- Rule 3 does not fire on any other total. -/
theorem quarterDollar_neg (r : Receipt)
    (h : ¬ ∃ n, r.Total = F64.finite n ∧ ((2 ^ 1072 : Nat) : Int) ∣ n) :
    AddQuarterDollarPoints r = 0 := by
  have hpos : (0 : Int) < ((2 ^ 1072 : Nat) : Int) := by positivity
  unfold AddQuarterDollarPoints
  rw [F64.ofFrac_quarter, F64.ofFrac_zero,
    if_neg (fun hc => h ((F64.mod_eq_zero_iff _ _ hpos).1 hc))]

/-- A multiple of `1.0` is a multiple of `0.25`. -/
theorem whole_is_quarter (x : F64) (h : ∃ n, x = F64.finite n ∧ F64.one ∣ n) :
    ∃ n, x = F64.finite n ∧ ((2 ^ 1072 : Nat) : Int) ∣ n := by
  obtain ⟨n, hn, hd⟩ := h
  exact ⟨n, hn, Dvd.dvd.trans ⟨4, by rw [mul_comm]; exact F64.quarter_mul.symm⟩ hd⟩

set_option exponentiation.threshold 5000 in
/-- C7: `AddRoundDollarPoints` returns 50 when the total has zero fractional part
(it is finite and its value is a whole number, so that `total mod 1 = 0`) and 0
otherwise; a total of 15 gives 50, totals of 19.47 and 12.25 give 0. -/
theorem C7_AddRoundDollarPoints_whole_total (r : Receipt) :
    ((∃ k : ℤ, F64.toRat r.Total = some (k : ℚ)) → AddRoundDollarPoints r = 50)
    ∧ ((¬ ∃ k : ℤ, F64.toRat r.Total = some (k : ℚ)) → AddRoundDollarPoints r = 0)
    ∧ (r.Total = F64.ofFrac 15 1 → AddRoundDollarPoints r = 50)
    ∧ (r.Total = F64.ofFrac 1947 100 → AddRoundDollarPoints r = 0)
    ∧ (r.Total = F64.ofFrac 1225 100 → AddRoundDollarPoints r = 0) := by
  refine ⟨?_, ?_, ?_, ?_, ?_⟩
  · intro h
    exact roundDollar_pos r ((F64.isInt_iff _).2 h)
  · intro h
    exact roundDollar_neg r (fun hc => h ((F64.isInt_iff _).1 hc))
  · intro h; simp only [AddRoundDollarPoints, h]; decide
  · intro h; simp only [AddRoundDollarPoints, h]; decide
  · intro h; simp only [AddRoundDollarPoints, h]; decide

set_option exponentiation.threshold 5000 in
/-- C8: `AddQuarterDollarPoints` returns 25 when the total is an exact multiple of
0.25 (it is finite and its value is `k / 4` for a whole number `k`, so that
`total mod 0.25 = 0`) and 0 otherwise; totals of 15 and 12.25 give 25, a total
of 19.47 gives 0. -/
theorem C8_AddQuarterDollarPoints_quarter_total (r : Receipt) :
    ((∃ k : ℤ, F64.toRat r.Total = some ((k : ℚ) / 4)) → AddQuarterDollarPoints r = 25)
    ∧ ((¬ ∃ k : ℤ, F64.toRat r.Total = some ((k : ℚ) / 4)) → AddQuarterDollarPoints r = 0)
    ∧ (r.Total = F64.ofFrac 15 1 → AddQuarterDollarPoints r = 25)
    ∧ (r.Total = F64.ofFrac 1225 100 → AddQuarterDollarPoints r = 25)
    ∧ (r.Total = F64.ofFrac 1947 100 → AddQuarterDollarPoints r = 0) := by
  refine ⟨?_, ?_, ?_, ?_, ?_⟩
  · intro h
    exact quarterDollar_pos r ((F64.isQuarter_iff _).2 h)
  · intro h
    exact quarterDollar_neg r (fun hc => h ((F64.isQuarter_iff _).1 hc))
  · intro h; simp only [AddQuarterDollarPoints, h]; decide
  · intro h; simp only [AddQuarterDollarPoints, h]; decide
  · intro h; simp only [AddQuarterDollarPoints, h]; decide

set_option exponentiation.threshold 5000 in
/-- C9: the condition of rule 2 is a strict subset of that of rule 3: whenever
`AddRoundDollarPoints` returns 50, `AddQuarterDollarPoints` returns 25, and on a
receipt with total 12.25 the quarter rule returns 25 while the round-dollar rule
returns 0. Together the two rules contribute 0, 25 or 75, never exactly 50. -/
theorem C9_round_dollar_implies_quarter (r : Receipt) :
    (AddRoundDollarPoints r = 50 → AddQuarterDollarPoints r = 25)
    ∧ (∃ r0 : Receipt, r0.Total = F64.ofFrac 1225 100 ∧
        AddQuarterDollarPoints r0 = 25 ∧ AddRoundDollarPoints r0 = 0)
    ∧ (AddRoundDollarPoints r + AddQuarterDollarPoints r = 0 ∨
        AddRoundDollarPoints r + AddQuarterDollarPoints r = 25 ∨
        AddRoundDollarPoints r + AddQuarterDollarPoints r = 75)
    ∧ AddRoundDollarPoints r + AddQuarterDollarPoints r ≠ 50 := by
  refine ⟨?_, ?_, ?_, ?_⟩
  · by_cases h : ∃ n, r.Total = F64.finite n ∧ F64.one ∣ n
    · intro _; exact quarterDollar_pos r (whole_is_quarter _ h)
    · rw [roundDollar_neg r h]; intro hc; exact absurd hc (by decide)
  · refine ⟨⟨"", ⟨0, 0, UTC⟩, ⟨0, 0, UTC⟩, none, F64.ofFrac 1225 100⟩, rfl, ?_, ?_⟩
    · simp only [AddQuarterDollarPoints]; decide
    · simp only [AddRoundDollarPoints]; decide
  · by_cases h : ∃ n, r.Total = F64.finite n ∧ F64.one ∣ n
    · rw [roundDollar_pos r h, quarterDollar_pos r (whole_is_quarter _ h)]; right; right; rfl
    · rw [roundDollar_neg r h]
      by_cases h2 : ∃ n, r.Total = F64.finite n ∧ ((2 ^ 1072 : Nat) : Int) ∣ n
      · rw [quarterDollar_pos r h2]; right; left; rfl
      · rw [quarterDollar_neg r h2]; left; rfl
  · by_cases h : ∃ n, r.Total = F64.finite n ∧ F64.one ∣ n
    · rw [roundDollar_pos r h, quarterDollar_pos r (whole_is_quarter _ h)]; decide
    · rw [roundDollar_neg r h]
      by_cases h2 : ∃ n, r.Total = F64.finite n ∧ ((2 ^ 1072 : Nat) : Int) ∣ n
      · rw [quarterDollar_pos r h2]; decide
      · rw [quarterDollar_neg r h2]; decide

/-! ## Rule 5: item descriptions -/

theorem wrapInt64_add_right (a b : Int) : wrapInt64 (a + wrapInt64 b) = wrapInt64 (a + b) := by
  unfold wrapInt64; omega

theorem wrapInt64_zero : wrapInt64 0 = 0 := by
  unfold wrapInt64; omega

/-- The conversion `int(x)` always lands in the 64-bit range. -/
theorem F64.toInt_range (indef : F64 → Int) (x : F64) :
    minInt64 ≤ F64.toInt indef x ∧ F64.toInt indef x ≤ maxInt64 := by
  cases x with
  | finite n =>
    simp only [F64.toInt]
    split
    · assumption
    · exact wrapInt64_range _
  | inf s => exact wrapInt64_range _
  | nan => exact wrapInt64_range _

set_option exponentiation.threshold 5000 in
/-- The whole number `⌈x⌉` of a finite value, in integer arithmetic on its units. -/
theorem F64.ceil_units (n : Int) : ⌈(n : ℚ) / (2 : ℚ) ^ 1074⌉ = -((-n) / F64.one) := by
  have h1 : (n : ℚ) / (2 : ℚ) ^ 1074 = -(((-n : Int) : ℚ) / ((2 ^ 1074 : Nat) : ℚ)) := by
    push_cast; ring
  rw [h1, Int.ceil_neg, Rat.floor_intCast_div_natCast]
  rfl

/-- `math.Ceil` of a finite value is the whole number `⌈x⌉`. -/
theorem F64.Ceil_finite (n : Int) :
    F64.Ceil (F64.finite n) = F64.finite (⌈(n : ℚ) / (2 : ℚ) ^ 1074⌉ * F64.one) := by
  rw [F64.ceil_units]; rfl

/-- `int(x)` of a whole number in the 64-bit range is that number. -/
theorem F64.toInt_whole (indef : F64 → Int) (c : Int) (h1 : minInt64 ≤ c) (h2 : c ≤ maxInt64) :
    F64.toInt indef (F64.finite (c * F64.one)) = c := by
  simp only [F64.toInt, Int.mul_tdiv_cancel c (ne_of_gt F64.one_pos)]
  rw [if_pos ⟨h1, h2⟩]

/-- The value the loop body of rule 5 adds for an item. -/
theorem itemDescriptionPoints_eq (indef : F64 → Int) (item : Item) :
    itemDescriptionPoints indef item =
      if item.ShortDescription ≠ "" ∧ len (TrimSpace item.ShortDescription) % 3 = 0 then
        F64.toInt indef (F64.Ceil (F64.mul item.Price (F64.ofFrac 1 5)))
      else 0 := by
  unfold itemDescriptionPoints itemDescriptionStep
  by_cases h1 : item.ShortDescription ≠ ""
  · by_cases h2 : len (TrimSpace item.ShortDescription) % 3 = 0
    · rw [if_pos h1, if_pos h2, if_pos ⟨h1, h2⟩]
      simp only [addInt, zero_add]
      exact wrapInt64_of_range (F64.toInt_range _ _).1 (F64.toInt_range _ _).2
    · rw [if_pos h1, if_neg h2, if_neg (fun hc => h2 hc.2)]
  · rw [if_neg h1, if_neg (fun hc => h1 hc.1)]

/-- One pass of the loop body adds the item's points, in Go arithmetic. -/
theorem itemDescriptionStep_eq (indef : F64 → Int) (a : Int) (item : Item) :
    itemDescriptionStep indef (wrapInt64 a) item =
      wrapInt64 (a + itemDescriptionPoints indef item) := by
  rw [itemDescriptionPoints_eq]
  unfold itemDescriptionStep
  by_cases h1 : item.ShortDescription ≠ ""
  · by_cases h2 : len (TrimSpace item.ShortDescription) % 3 = 0
    · rw [if_pos h1, if_pos h2, if_pos ⟨h1, h2⟩]
      simp only [addInt, wrapInt64_add_left]
    · rw [if_pos h1, if_neg h2, if_neg (fun hc => h2 hc.2), add_zero]
  · rw [if_neg h1, if_neg (fun hc => h1 hc.1), add_zero]

/-- The loop of rule 5 computes the Go sum of the per-item points. -/
theorem foldl_itemDescriptionStep (indef : F64 → Int) (items : List Item) (a : Int) :
    items.foldl (itemDescriptionStep indef) (wrapInt64 a) =
      wrapInt64 (a + (items.map (itemDescriptionPoints indef)).sum) := by
  induction items generalizing a with
  | nil => simp
  | cons x xs ih =>
    rw [List.foldl_cons, itemDescriptionStep_eq, ih, List.map_cons, List.sum_cons, add_assoc]

/-- Rule 5 as the Go sum of the per-item points over the items of the receipt. -/
theorem descriptionPoints_eq_sum (indef : F64 → Int) (r : Receipt) :
    CalculateItemDescriptionPoints indef r =
      wrapInt64 (((r.Items.getD []).map (itemDescriptionPoints indef)).sum) := by
  unfold CalculateItemDescriptionPoints
  cases r.Items with
  | none => simp [wrapInt64_zero]
  | some items =>
    have h := foldl_itemDescriptionStep indef items 0
    rw [wrapInt64_zero, zero_add] at h
    simpa using h

/-- The trimmed length of an empty description is zero. -/
theorem len_TrimSpace_empty : len (TrimSpace "") = 0 := by decide

/-- A description made of white space only trims to the empty string. -/
theorem len_TrimSpace_of_all_space (s : String) (h : ∀ c ∈ s.data, IsSpace c = true) :
    len (TrimSpace s) = 0 := by
  have h1 : s.data.dropWhile IsSpace = [] := List.dropWhile_eq_nil_iff.2 h
  simp [len, TrimSpace, h1]

set_option exponentiation.threshold 5000 in
/-- C2: every item whose description, trimmed of leading and trailing white
space, has a length that is non-zero and a multiple of 3 adds
`int(math.Ceil(price * 0.2))`, which is `⌈q⌉` for the `float64` product `q` of the
price and 0.2 whenever that fits in an `int`; every item whose trimmed length is
not a multiple of 3 adds 0; and `CalculateItemDescriptionPoints` is the sum (in Go
`int` arithmetic, exact when it fits) of the per-item points over all items.
"Item 1" at 9.99 gives 2, "Apples   " at 11.65 gives 3, "Bananas" gives 0. -/
theorem C2_CalculateItemDescriptionPoints_per_item (indef : F64 → Int) (r : Receipt) :
    CalculateItemDescriptionPoints indef r =
        wrapInt64 (((r.Items.getD []).map (itemDescriptionPoints indef)).sum)
    ∧ (minInt64 ≤ ((r.Items.getD []).map (itemDescriptionPoints indef)).sum ∧
        ((r.Items.getD []).map (itemDescriptionPoints indef)).sum ≤ maxInt64 →
        CalculateItemDescriptionPoints indef r =
          ((r.Items.getD []).map (itemDescriptionPoints indef)).sum)
    ∧ (∀ item : Item, len (TrimSpace item.ShortDescription) ≠ 0 →
        len (TrimSpace item.ShortDescription) % 3 = 0 →
        itemDescriptionPoints indef item =
            F64.toInt indef (F64.Ceil (F64.mul item.Price (F64.ofFrac 1 5)))
        ∧ ∀ q : ℚ, F64.toRat (F64.mul item.Price (F64.ofFrac 1 5)) = some q →
            minInt64 ≤ ⌈q⌉ → ⌈q⌉ ≤ maxInt64 → itemDescriptionPoints indef item = ⌈q⌉)
    ∧ (∀ item : Item, len (TrimSpace item.ShortDescription) % 3 ≠ 0 →
        itemDescriptionPoints indef item = 0)
    ∧ itemDescriptionPoints indef ⟨"Item 1", F64.ofFrac 999 100⟩ = 2
    ∧ itemDescriptionPoints indef ⟨"Apples   ", F64.ofFrac 1165 100⟩ = 3
    ∧ (∀ price : F64, itemDescriptionPoints indef ⟨"Bananas", price⟩ = 0) := by
  have hne : ∀ item : Item, len (TrimSpace item.ShortDescription) ≠ 0 →
      item.ShortDescription ≠ "" := by
    intro item h hc
    rw [hc] at h
    exact h len_TrimSpace_empty
  refine ⟨descriptionPoints_eq_sum indef r, ?_, ?_, ?_, ?_, ?_, ?_⟩
  · rintro ⟨h1, h2⟩
    rw [descriptionPoints_eq_sum, wrapInt64_of_range h1 h2]
  · intro item h0 h3
    have heq : itemDescriptionPoints indef item =
        F64.toInt indef (F64.Ceil (F64.mul item.Price (F64.ofFrac 1 5))) := by
      rw [itemDescriptionPoints_eq, if_pos ⟨hne item h0, h3⟩]
    refine ⟨heq, ?_⟩
    intro q hq hlo hhi
    rw [heq]
    cases hm : F64.mul item.Price (F64.ofFrac 1 5) with
    | finite n =>
      rw [hm] at hq
      simp only [F64.toRat, Option.some.injEq] at hq
      rw [F64.Ceil_finite, hq]
      exact F64.toInt_whole indef _ hlo hhi
    | inf s => rw [hm] at hq; simp [F64.toRat] at hq
    | nan => rw [hm] at hq; simp [F64.toRat] at hq
  · intro item h3
    rw [itemDescriptionPoints_eq, if_neg (fun hc => h3 hc.2)]
  · rw [itemDescriptionPoints_eq, if_pos (by decide)]
    have hc : F64.Ceil (F64.mul (F64.ofFrac 999 100) (F64.ofFrac 1 5)) =
        F64.finite (2 * F64.one) := by decide
    simp only [hc]
    exact F64.toInt_whole indef 2 (by decide) (by decide)
  · rw [itemDescriptionPoints_eq, if_pos (by decide)]
    have hc : F64.Ceil (F64.mul (F64.ofFrac 1165 100) (F64.ofFrac 1 5)) =
        F64.finite (3 * F64.one) := by decide
    simp only [hc]
    exact F64.toInt_whole indef 3 (by decide) (by decide)
  · intro price
    have h7 : ¬ ("Bananas" ≠ "" ∧ len (TrimSpace "Bananas") % 3 = 0) := by decide
    rw [itemDescriptionPoints_eq, if_neg h7]

set_option exponentiation.threshold 5000 in
/-- C3, as stated, fails: the item with description "   " (three spaces, white
space only) at price 9.99 contributes 2, not 0, and a receipt holding just that
item scores 2 on rule 5. -/
theorem C3_counterexample_whitespace_only :
    "   ".data.all IsSpace = true
    ∧ itemDescriptionPoints amd64Indefinite ⟨"   ", F64.ofFrac 999 100⟩ = 2
    ∧ CalculateItemDescriptionPoints amd64Indefinite
        ⟨"", ⟨0, 0, UTC⟩, ⟨0, 0, UTC⟩, some [⟨"   ", F64.ofFrac 999 100⟩], F64.ofFrac 0 1⟩ = 2 := by
  decide

/-- C3, amended: an item whose description is the empty string contributes 0
to `CalculateItemDescriptionPoints` whatever its price (its points are 0 and
removing it from the list leaves the result unchanged); an item whose description
is not empty but consists of white space only has trimmed length 0 and
contributes `int(math.Ceil(price * 0.2))`. -/
theorem C3_empty_description_contributes_zero (indef : F64 → Int) (item : Item) :
    (item.ShortDescription = "" →
      itemDescriptionPoints indef item = 0 ∧
      ∀ (r : Receipt) (before after : List Item),
        CalculateItemDescriptionPoints indef { r with Items := some (before ++ item :: after) } =
          CalculateItemDescriptionPoints indef { r with Items := some (before ++ after) })
    ∧ (item.ShortDescription ≠ "" → (∀ c ∈ item.ShortDescription.data, IsSpace c = true) →
        itemDescriptionPoints indef item =
          F64.toInt indef (F64.Ceil (F64.mul item.Price (F64.ofFrac 1 5)))) := by
  constructor
  · intro h
    have h0 : itemDescriptionPoints indef item = 0 := by
      rw [itemDescriptionPoints_eq, if_neg (fun hc => hc.1 h)]
    refine ⟨h0, ?_⟩
    intro r before after
    rw [descriptionPoints_eq_sum, descriptionPoints_eq_sum]
    simp [h0]
  · intro hne hall
    rw [itemDescriptionPoints_eq, if_pos ⟨hne, by rw [len_TrimSpace_of_all_space _ hall]; rfl⟩]

set_option exponentiation.threshold 5000 in
/-- C3, amended, at the items of the repository's tests: the item with the empty
description at 3.49 contributes 0, and three spaces at 9.99 contribute
`int(math.Ceil(9.99 * 0.2)) = 2`. -/
theorem C3_empty_description_witness :
    itemDescriptionPoints amd64Indefinite ⟨"", F64.ofFrac 349 100⟩ = 0
    ∧ itemDescriptionPoints amd64Indefinite ⟨"   ", F64.ofFrac 999 100⟩ =
        F64.toInt amd64Indefinite (F64.Ceil (F64.mul (F64.ofFrac 999 100) (F64.ofFrac 1 5)))
    ∧ F64.toInt amd64Indefinite (F64.Ceil (F64.mul (F64.ofFrac 999 100) (F64.ofFrac 1 5))) = 2 :=
  ⟨((C3_empty_description_contributes_zero amd64Indefinite ⟨"", F64.ofFrac 349 100⟩).1 rfl).1,
   (C3_empty_description_contributes_zero amd64Indefinite ⟨"   ", F64.ofFrac 999 100⟩).2
      (by decide) (by decide),
   by decide⟩

/-! ## Calendar -/

/-- January 1 of the year assembled from its 400-, 100-, 4- and 1-year cycles. -/
theorem daysSinceEpoch_parts (a b c e : Int) (hb : 0 ≤ b ∧ b ≤ 3) (hc : 0 ≤ c ∧ c ≤ 24)
    (he : 0 ≤ e ∧ e ≤ 3) :
    daysSinceEpoch (400 * a + 100 * b + 4 * c + e + 1) =
      146097 * a + 36524 * b + 1461 * c + 365 * e := by
  unfold daysSinceEpoch
  have e1 : (400 * a + 100 * b + 4 * c + e + 1 - 1) / 400 = a := by omega
  simp only [e1]
  have e2 : (400 * a + 100 * b + 4 * c + e + 1 - 1 - 400 * a) / 100 = b := by omega
  simp only [e2]
  have e3 : (400 * a + 100 * b + 4 * c + e + 1 - 1 - 400 * a - 100 * b) / 4 = c := by omega
  simp only [e3]
  omega

/-- The year cycles that `absDate` cuts off a day number. -/
theorem yearDay_parts (d : Int) :
    let n400 := d / 146097
    let d1 := d - 146097 * n400
    let n100 := d1 / 36524 - d1 / 36524 / 4
    let d2 := d1 - 36524 * n100
    let n4 := d2 / 1461
    let d3 := d2 - 1461 * n4
    let n1 := d3 / 365 - d3 / 365 / 4
    let yday := d3 - 365 * n1
    let year := 400 * n400 + 100 * n100 + 4 * n4 + n1 + 1
    daysSinceEpoch year = d - yday ∧ 0 ≤ yday ∧ yday ≤ 365 ∧
      (yday = 365 → year % 4 = 0 ∧ (year % 100 ≠ 0 ∨ year % 400 = 0)) := by
  intro n400 d1 n100 d2 n4 d3 n1 yday year
  have hd1 : 0 ≤ d1 ∧ d1 ≤ 146096 := by omega
  have hn100 : 0 ≤ n100 ∧ n100 ≤ 3 := by omega
  have hd2 : 0 ≤ d2 ∧ d2 ≤ 36524 ∧ (n100 ≤ 2 → d2 ≤ 36523) := by omega
  have hn4 : 0 ≤ n4 ∧ n4 ≤ 24 := by omega
  have hd3 : 0 ≤ d3 ∧ d3 ≤ 1460 ∧ (n4 = 24 → n100 ≤ 2 → d3 ≤ 1459) := by omega
  have hn1 : 0 ≤ n1 ∧ n1 ≤ 3 := by omega
  have hyd : 0 ≤ yday ∧ yday ≤ 365 ∧ (yday = 365 → n1 = 3 ∧ d3 = 1460) := by omega
  have hdays : daysSinceEpoch year =
      146097 * n400 + 36524 * n100 + 1461 * n4 + 365 * n1 :=
    daysSinceEpoch_parts n400 n100 n4 n1 hn100 hn4 hn1
  refine ⟨by omega, hyd.1, hyd.2.1, ?_⟩
  intro h
  omega

/-- The year and day of the year that `absDate` finds: the day number is the
first day of the year plus the day of the year, which is below 366, and is 365
only in a leap year. -/
theorem yearDay_spec (d : Int) :
    daysSinceEpoch (yearDay d).1 = d - (yearDay d).2 ∧ 0 ≤ (yearDay d).2 ∧
      (yearDay d).2 ≤ 365 ∧ ((yearDay d).2 = 365 → isLeap (yearDay d).1 = true) := by
  have h := yearDay_parts d
  simp only [isLeap, Bool.and_eq_true, Bool.or_eq_true, decide_eq_true_eq]
  exact h
/-- The entries of the table `daysBefore`. -/
theorem daysBefore_table :
    daysBefore 0 = 0 ∧ daysBefore 1 = 31 ∧ daysBefore 2 = 59 ∧ daysBefore 3 = 90 ∧
    daysBefore 4 = 120 ∧ daysBefore 5 = 151 ∧ daysBefore 6 = 181 ∧ daysBefore 7 = 212 ∧
    daysBefore 8 = 243 ∧ daysBefore 9 = 273 ∧ daysBefore 10 = 304 ∧ daysBefore 11 = 334 ∧
    daysBefore 12 = 365 := by decide

/-- The month estimate of `absDate` (every month taken as 31 days, then adjusted
by one) on a day of a non-leap year: the month found is in 1..12, the table
leads back to the day, and the month is January or February exactly for the
first 59 days. -/
theorem monthEstimate_spec (day k : Int) (h0 : 0 ≤ day) (h1 : day ≤ 364) (hk : day / 31 = k) :
    (daysBefore (k + 1) ≤ day →
      1 ≤ k + 2 ∧ k + 2 ≤ 12 ∧ daysBefore (k + 2 - 1) + (day - daysBefore (k + 1) + 1 - 1) = day ∧
        (k + 2 ≤ 2 ↔ day ≤ 58)) ∧
    (¬ daysBefore (k + 1) ≤ day →
      1 ≤ k + 1 ∧ k + 1 ≤ 12 ∧ daysBefore (k + 1 - 1) + (day - daysBefore k + 1 - 1) = day ∧
        (k + 1 ≤ 2 ↔ day ≤ 58)) := by
  obtain ⟨t0, t1, t2, t3, t4, t5, t6, t7, t8, t9, t10, t11, t12⟩ := daysBefore_table
  have hk0 : 0 ≤ k := by omega
  have hk1 : k ≤ 11 := by omega
  interval_cases k <;>
    norm_num [t0, t1, t2, t3, t4, t5, t6, t7, t8, t9, t10, t11, t12] <;> omega

/-- The month and day that `absDate` finds for a day of the year lead back to
that day of the year through the table `daysBefore` and the leap-day
adjustment of `time.Date`, and the month is in 1..12. -/
theorem monthDay_spec (leap : Bool) (yday : Int) (h0 : 0 ≤ yday) (h1 : yday ≤ 365)
    (h2 : yday = 365 → leap = true) :
    1 ≤ (monthDay leap yday).1 ∧ (monthDay leap yday).1 ≤ 12 ∧
      daysBefore ((monthDay leap yday).1 - 1) +
        (if leap && decide (3 ≤ (monthDay leap yday).1 - 1 + 1) then 1 else 0) +
        ((monthDay leap yday).2 - 1) = yday := by
  obtain ⟨t0, t1, t2, t3, t4, t5, t6, t7, t8, t9, t10, t11, t12⟩ := daysBefore_table
  cases leap with
  | false =>
    have h364 : yday ≤ 364 := by
      by_contra hc
      have := h2 (by omega)
      cases this
    have hme := monthEstimate_spec yday (yday / 31) h0 h364 rfl
    simp only [monthDay, Bool.false_and, Bool.false_eq_true, if_false]
    by_cases hc : daysBefore (yday / 31 + 1) ≤ yday
    · have := hme.1 hc
      rw [if_pos hc]
      simp only []
      omega
    · have := hme.2 hc
      rw [if_neg hc]
      simp only []
      omega
  | true =>
    simp only [monthDay, Bool.true_and, decide_eq_true_eq]
    by_cases h59 : yday = 59
    · rw [if_pos h59]
      simp only []
      rw [show (2 : Int) - 1 = 1 from rfl, t1, if_neg (by decide)]
      omega
    · rw [if_neg h59]
      by_cases hgt : 59 < yday
      · rw [if_pos hgt]
        have hme := monthEstimate_spec (yday - 1) ((yday - 1) / 31) (by omega) (by omega) rfl
        by_cases hc : daysBefore ((yday - 1) / 31 + 1) ≤ yday - 1
        · have := hme.1 hc
          rw [if_pos hc]
          simp only []
          rw [if_pos (by omega)]
          omega
        · have := hme.2 hc
          rw [if_neg hc]
          simp only []
          rw [if_pos (by omega)]
          omega
      · rw [if_neg hgt]
        have hme := monthEstimate_spec yday (yday / 31) h0 (by omega) rfl
        by_cases hc : daysBefore (yday / 31 + 1) ≤ yday
        · have := hme.1 hc
          rw [if_pos hc]
          simp only []
          rw [if_neg (by omega)]
          omega
        · have := hme.2 hc
          rw [if_neg hc]
          simp only []
          rw [if_neg (by omega)]
          omega

/-- `time.Date` applied to the date that `absDate` finds for a day number, with
a clock reading of whole hours, is that hour of that day. -/
theorem Date_absDate (d hour : Int) (loc : Location) (hh : 0 ≤ hour ∧ hour < 24) :
    Date (absDate d).1 (absDate d).2.1 (absDate d).2.2 hour 0 0 0 loc =
      ⟨d * 86400 + hour * 3600 - unixToInternal - loc.offset, 0, loc⟩ := by
  obtain ⟨hy1, hy2, hy3, hy4⟩ := yearDay_spec d
  obtain ⟨hm1, hm2, hm3⟩ := monthDay_spec (isLeap (yearDay d).1) (yearDay d).2 hy2 hy3 hy4
  have e1 : ((monthDay (isLeap (yearDay d).1) (yearDay d).2).1 - 1) / 12 = 0 := by omega
  have e2 : ((monthDay (isLeap (yearDay d).1) (yearDay d).2).1 - 1) % 12 =
      (monthDay (isLeap (yearDay d).1) (yearDay d).2).1 - 1 := by omega
  have e3 : hour / 24 = 0 := by omega
  have e4 : hour % 24 = hour := by omega
  simp only [Date, absDate, norm, e1, e2, e3, e4, add_zero, Int.zero_ediv, Int.zero_emod,
    Int.toNat_zero, Time.mk.injEq, and_true]
  omega

/-! ## Rule 7: purchase time -/

/-- Rule 7 by the clock reading of the purchase time. -/
theorem purchaseTimePoints_eq (r : Receipt) :
    AddPurchaseTimePoints r =
      if (r.PurchaseTime.Hour = 14 ∧ (0 < r.PurchaseTime.Minute ∨ 0 < r.PurchaseTime.Second ∨
            0 < r.PurchaseTime.Nanosecond)) ∨ r.PurchaseTime.Hour = 15
      then 10 else 0 := by
  have key : (r.PurchaseTime.After
        (Date r.PurchaseTime.Year r.PurchaseTime.Month r.PurchaseTime.Day 14 0 0 0
          r.PurchaseTime.Location) &&
      r.PurchaseTime.Before
        (Date r.PurchaseTime.Year r.PurchaseTime.Month r.PurchaseTime.Day 16 0 0 0
          r.PurchaseTime.Location)) = true ↔
      ((r.PurchaseTime.Hour = 14 ∧ (0 < r.PurchaseTime.Minute ∨ 0 < r.PurchaseTime.Second ∨
            0 < r.PurchaseTime.Nanosecond)) ∨ r.PurchaseTime.Hour = 15) := by
    simp only [Time.Year, Time.Month, Time.Day, Time.Location,
      Date_absDate _ 14 _ (by decide), Date_absDate _ 16 _ (by decide),
      Time.After, Time.Before, Bool.and_eq_true, Bool.or_eq_true, decide_eq_true_eq,
      Time.Hour, Time.Minute, Time.Second, Time.Nanosecond]
    have ha : r.PurchaseTime.abs =
        r.PurchaseTime.sec + r.PurchaseTime.loc.offset + unixToInternal := rfl
    generalize r.PurchaseTime.abs = a at *
    generalize r.PurchaseTime.sec = s at *
    generalize r.PurchaseTime.nsec = n at *
    generalize r.PurchaseTime.loc.offset = o at *
    unfold unixToInternal at *
    omega
  unfold AddPurchaseTimePoints
  by_cases hc : (r.PurchaseTime.Hour = 14 ∧ (0 < r.PurchaseTime.Minute ∨
      0 < r.PurchaseTime.Second ∨ 0 < r.PurchaseTime.Nanosecond)) ∨ r.PurchaseTime.Hour = 15
  · rw [if_pos hc]
    simp only []
    rw [if_pos (key.2 hc)]
  · rw [if_neg hc]
    simp only []
    rw [if_neg (fun h => hc (key.1 h))]

/-- C5: `AddPurchaseTimePoints` returns 10 when the time of day of the purchase
time is strictly after 14:00 and strictly before 16:00 (the hour is 14 with a
minute, second or nanosecond above zero, or the hour is 15) and 0 otherwise; it
returns 0 at exactly 14:00 and at exactly 16:00, and 10 at 14:10 and at 15:00. -/
theorem C5_AddPurchaseTimePoints_afternoon (r : Receipt) :
    AddPurchaseTimePoints r =
        (if (r.PurchaseTime.Hour = 14 ∧ (0 < r.PurchaseTime.Minute ∨
              0 < r.PurchaseTime.Second ∨ 0 < r.PurchaseTime.Nanosecond)) ∨
            r.PurchaseTime.Hour = 15
         then 10 else 0)
    ∧ (r.PurchaseTime = Date 2023 1 2 14 0 0 0 UTC → AddPurchaseTimePoints r = 0)
    ∧ (r.PurchaseTime = Date 2023 1 2 16 0 0 0 UTC → AddPurchaseTimePoints r = 0)
    ∧ (r.PurchaseTime = Date 2023 1 10 14 10 0 0 UTC → AddPurchaseTimePoints r = 10)
    ∧ (r.PurchaseTime = Date 2023 1 1 15 0 0 0 UTC → AddPurchaseTimePoints r = 10)
    ∧ (r.PurchaseTime = Date 0 1 1 14 0 0 0 UTC → AddPurchaseTimePoints r = 0)
    ∧ (r.PurchaseTime = Date 0 1 1 16 0 0 0 UTC → AddPurchaseTimePoints r = 0)
    ∧ (r.PurchaseTime = Date 0 1 1 14 0 0 1 UTC → AddPurchaseTimePoints r = 10)
    ∧ (r.PurchaseTime = Date 0 1 1 15 59 59 999999999 UTC → AddPurchaseTimePoints r = 10) := by
  refine ⟨purchaseTimePoints_eq r, ?_, ?_, ?_, ?_, ?_, ?_, ?_, ?_⟩ <;>
    (intro h; simp only [AddPurchaseTimePoints, h]; decide)

/-! ## Rounding bounds -/

theorem F64.bitLengthBelow_pos (k n : Nat) (h : 1 ≤ n) : 1 ≤ F64.bitLengthBelow k n := by
  induction k generalizing n with
  | zero =>
    have hn : n ≠ 0 := by omega
    simp [F64.bitLengthBelow, hn]
  | succ k ih =>
    simp only [F64.bitLengthBelow]
    split
    · exact ih n h
    · have : 1 ≤ 2 ^ k := Nat.one_le_two_pow
      omega

/-- The digit count never overshoots: `2^(bitLength n - 1) ≤ n` for positive `n`. -/
theorem F64.bitLengthBelow_le (k n : Nat) (h : 1 ≤ n) : 2 ^ (F64.bitLengthBelow k n - 1) ≤ n := by
  induction k generalizing n with
  | zero =>
    have hn : n ≠ 0 := by omega
    simp [F64.bitLengthBelow, hn]
    omega
  | succ k ih =>
    simp only [F64.bitLengthBelow]
    split
    · exact ih n h
    · rename_i hlt
      have hge : 2 ^ 2 ^ k ≤ n := Nat.le_of_not_lt hlt
      have hpos : 0 < 2 ^ 2 ^ k := pow_pos (by decide) _
      have hn1 : 1 ≤ n / 2 ^ 2 ^ k := (Nat.one_le_div_iff hpos).2 hge
      have ih1 := ih _ hn1
      have hp := F64.bitLengthBelow_pos k _ hn1
      have he : 2 ^ k + F64.bitLengthBelow k (n / 2 ^ 2 ^ k) - 1 =
          2 ^ k + (F64.bitLengthBelow k (n / 2 ^ 2 ^ k) - 1) :=
        Nat.add_sub_assoc hp _
      rw [he, pow_add]
      calc 2 ^ 2 ^ k * 2 ^ (F64.bitLengthBelow k (n / 2 ^ 2 ^ k) - 1)
          ≤ 2 ^ 2 ^ k * (n / 2 ^ 2 ^ k) := Nat.mul_le_mul_left _ ih1
        _ ≤ n := Nat.mul_div_le n _

theorem F64.bitLength_zero : F64.bitLength 0 = 0 := by decide

theorem F64.roundHalfEven_le (a b : Nat) : F64.roundHalfEven a b ≤ a / b + 1 := by
  simp only [F64.roundHalfEven]
  split_ifs <;> omega

/-- Rounding to 53 significant bits at most doubles a magnitude (plus one unit). -/
theorem F64.roundMagnitude_le (a b : Nat) : F64.roundMagnitude a b ≤ 2 * (a / b) + 1 := by
  simp only [F64.roundMagnitude]
  have hs : 2 ^ (F64.bitLength (a / b) - 53) ≤ a / b + 1 := by
    rcases Nat.eq_zero_or_pos (a / b) with h0 | hpos
    · rw [h0, F64.bitLength_zero]; decide
    · have h1 := F64.bitLengthBelow_le (F64.chunkLevel (a / b) 0 (a / b)) (a / b) hpos
      have h2 : 2 ^ (F64.bitLength (a / b) - 53) ≤ 2 ^ (F64.bitLength (a / b) - 1) :=
        Nat.pow_le_pow_right (by decide) (by omega)
      unfold F64.bitLength at h2 ⊢
      omega
  have h1 := F64.roundHalfEven_le a (b * 2 ^ (F64.bitLength (a / b) - 53))
  have h2 : a / (b * 2 ^ (F64.bitLength (a / b) - 53)) * 2 ^ (F64.bitLength (a / b) - 53) ≤ a / b := by
    rw [← Nat.div_div_eq_div_mul]
    exact Nat.div_mul_le_self _ _
  calc F64.roundHalfEven a (b * 2 ^ (F64.bitLength (a / b) - 53)) * 2 ^ (F64.bitLength (a / b) - 53)
      ≤ (a / (b * 2 ^ (F64.bitLength (a / b) - 53)) + 1) * 2 ^ (F64.bitLength (a / b) - 53) :=
        Nat.mul_le_mul_right _ h1
    _ = a / (b * 2 ^ (F64.bitLength (a / b) - 53)) * 2 ^ (F64.bitLength (a / b) - 53) +
          2 ^ (F64.bitLength (a / b) - 53) := by ring
    _ ≤ 2 * (a / b) + 1 := by omega

set_option exponentiation.threshold 5000 in
/-- The `float64` constant `0.2`, in units. -/
theorem F64.ofFrac_fifth :
    F64.ofFrac 1 5 = F64.finite ((3602879701896397 * 2 ^ 1020 : Nat) : Int) := by decide

set_option exponentiation.threshold 5000 in
theorem F64.fifth_le_quarter : 4 * (3602879701896397 * 2 ^ 1020 : Nat) ≤ 2 ^ 1074 := by decide

set_option exponentiation.threshold 5000 in
theorem F64.below_overflow : 4611686018427387904 * 2 ^ 1074 + 1 < 2 ^ 2098 := by decide

/-- Rounding a non-negative product that stays below `2^62` times the divisor. -/
theorem F64.round_nonneg_bound (P C o : Nat) (ho : o ≠ 0) (hC : 4 * C ≤ o)
    (hP : P ≤ 9223372036854775808 * o) (hO : 4611686018427387904 * o + 1 < 2 ^ 2098) :
    ∃ m : Int, F64.round ((P : Int) * (C : Int)) o = F64.finite m ∧ 0 ≤ m ∧
      m ≤ 4611686018427387904 * (o : Int) + 1 := by
  have hnat : (((P : Int) * (C : Int)).natAbs) = P * C := by
    rw [Int.natAbs_mul]; simp
  have hdiv : P * C / o ≤ 9223372036854775808 * C := by
    apply Nat.div_le_of_le_mul
    calc P * C ≤ 9223372036854775808 * o * C := Nat.mul_le_mul_right _ hP
      _ = o * (9223372036854775808 * C) := by ring
  have hM := F64.roundMagnitude_le (P * C) o
  have hM2 : F64.roundMagnitude (P * C) o ≤ 4611686018427387904 * o + 1 := by omega
  have hnn : ¬ ((P : Int) * (C : Int) < 0) :=
    not_lt.2 (Int.mul_nonneg (Int.ofNat_nonneg _) (Int.ofNat_nonneg _))
  refine ⟨(F64.roundMagnitude (P * C) o : Nat), ?_, Int.ofNat_nonneg _, by exact_mod_cast hM2⟩
  simp only [F64.round, ho, if_false, hnat, hnn]
  rw [if_neg (not_le.2 (lt_of_le_of_lt hM2 hO))]

/-- The product of a price between 0 and `2^63` with the constant `0.2` is finite,
non-negative and at most `2^62` (plus one unit). -/
theorem F64.mul_fifth_bound (p : Int) (h0 : 0 ≤ p) (h1 : p ≤ 9223372036854775808 * F64.one) :
    ∃ m : Int, F64.mul (F64.finite p) (F64.ofFrac 1 5) = F64.finite m ∧ 0 ≤ m ∧
      m ≤ 4611686018427387904 * F64.one + 1 := by
  obtain ⟨P, rfl⟩ := Int.eq_ofNat_of_zero_le h0
  have hP : P ≤ 9223372036854775808 * 2 ^ 1074 := by
    unfold F64.one at h1; exact_mod_cast h1
  rw [F64.ofFrac_fifth]
  exact F64.round_nonneg_bound P _ _ (pow_ne_zero _ (by decide)) F64.fifth_le_quarter hP
    F64.below_overflow

/-- The points of an item priced between 0 and `2^63` are not negative. -/
theorem itemDescriptionPoints_nonneg (indef : F64 → Int) (item : Item)
    (hp : F64.between 0 9223372036854775808 item.Price = true) :
    0 ≤ itemDescriptionPoints indef item := by
  rw [itemDescriptionPoints_eq]
  split
  · cases hprice : item.Price with
    | finite p =>
      rw [hprice] at hp
      simp only [F64.between, Bool.and_eq_true, decide_eq_true_eq, zero_mul] at hp
      obtain ⟨m, hm, hm0, hm1⟩ := F64.mul_fifth_bound p hp.1 hp.2
      rw [hm]
      have hv0 : 0 ≤ -((-m) / F64.one) := by
        have : (-m) / F64.one ≤ 0 := Int.ediv_le_of_le_mul F64.one_pos (by omega)
        omega
      have hv1 : -((-m) / F64.one) ≤ maxInt64 := by
        have hone := F64.one_pos
        have : -4611686018427387905 ≤ (-m) / F64.one :=
          Int.le_ediv_of_mul_le F64.one_pos (by omega)
        unfold maxInt64; omega
      have hceil : F64.Ceil (F64.finite m) = F64.finite (-((-m) / F64.one) * F64.one) := rfl
      rw [hceil, F64.toInt_whole indef _ (by unfold minInt64; omega) hv1]
      exact hv0
    | inf s => rw [hprice] at hp; simp [F64.between] at hp
    | nan => rw [hprice] at hp; simp [F64.between] at hp
  · exact le_refl 0

/-! ## Non-negativity -/

/-- The test `F64.between lo hi x` says that `x` is finite with `lo ≤ x ≤ hi`. -/
theorem F64.between_iff (lo hi : Int) (x : F64) :
    F64.between lo hi x = true ↔
      ∃ q : ℚ, F64.toRat x = some q ∧ (lo : ℚ) ≤ q ∧ q ≤ (hi : ℚ) := by
  have hpos : (0 : ℚ) < (2 : ℚ) ^ 1074 := by positivity
  cases x with
  | finite n =>
    have e1 : lo * F64.one ≤ n ↔ (lo : ℚ) * (2 : ℚ) ^ 1074 ≤ (n : ℚ) := by
      rw [← F64.one_cast, ← Int.cast_mul, Int.cast_le]
    have e2 : n ≤ hi * F64.one ↔ (n : ℚ) ≤ (hi : ℚ) * (2 : ℚ) ^ 1074 := by
      rw [← F64.one_cast, ← Int.cast_mul, Int.cast_le]
    simp only [F64.between, Bool.and_eq_true, decide_eq_true_eq, F64.toRat, Option.some.injEq,
      exists_eq_left', le_div_iff₀ hpos, div_le_iff₀ hpos, e1, e2]
  | inf s => simp [F64.between, F64.toRat]
  | nan => simp [F64.between, F64.toRat]


/-- The aggregator as one reduced sum. -/
theorem CalculatePoints_eq_wrap (u : UnicodeTables) (indef : F64 → Int) (r : Receipt) :
    CalculatePoints u indef r =
      wrapInt64 (CalculateRetailerNamePoints u r + AddRoundDollarPoints r +
        AddQuarterDollarPoints r + CalculatePurchaseItemsPoints r +
        CalculateItemDescriptionPoints indef r + AddOddPurchaseDayPoints r +
        AddPurchaseTimePoints r) := by
  simp only [CalculatePoints, addInt, wrapInt64_add_left, zero_add]

/-- Rules 1 to 4, 6 and 7 never return a negative value. -/
theorem other_rules_nonneg (u : UnicodeTables) (r : Receipt) :
    0 ≤ CalculateRetailerNamePoints u r ∧ 0 ≤ AddRoundDollarPoints r ∧
      0 ≤ AddQuarterDollarPoints r ∧ 0 ≤ CalculatePurchaseItemsPoints r ∧
      0 ≤ AddOddPurchaseDayPoints r ∧ 0 ≤ AddPurchaseTimePoints r := by
  refine ⟨?_, ?_, ?_, ?_, ?_, ?_⟩
  · rw [retailerPoints_eq_count]; exact Int.ofNat_nonneg _
  · unfold AddRoundDollarPoints; split <;> decide
  · unfold AddQuarterDollarPoints; split <;> decide
  · unfold CalculatePurchaseItemsPoints
    cases r.Items with
    | none => exact le_refl 0
    | some items => simp only []; omega
  · unfold AddOddPurchaseDayPoints; simp only []; split <;> decide
  · unfold AddPurchaseTimePoints; simp only []; split <;> decide

/-- A sum of non-negative item points is non-negative. -/
theorem sum_itemDescriptionPoints_nonneg (indef : F64 → Int) (items : List Item)
    (h : ∀ item ∈ items, F64.between 0 9223372036854775808 item.Price = true) :
    0 ≤ (items.map (itemDescriptionPoints indef)).sum := by
  induction items with
  | nil => simp
  | cons x xs ih =>
    rw [List.map_cons, List.sum_cons]
    have h1 := itemDescriptionPoints_nonneg indef x (h x (List.mem_cons_self _ _))
    have h2 := ih (fun item hi => h item (List.mem_cons_of_mem _ hi))
    omega

set_option exponentiation.threshold 5000 in
/-- C4, as stated, fails: the receipt with the single item "abc" at price -10.00
is accepted by the parser, `CalculateItemDescriptionPoints` returns -2 on it and
so does `CalculatePoints`. -/
theorem C4_counterexample_negative_price :
    CalculateItemDescriptionPoints amd64Indefinite negativePriceReceipt = -2
    ∧ CalculatePoints latin1Tables amd64Indefinite negativePriceReceipt = -2
    ∧ ¬ (0 ≤ CalculateItemDescriptionPoints amd64Indefinite negativePriceReceipt)
    ∧ ¬ (0 ≤ CalculatePoints latin1Tables amd64Indefinite negativePriceReceipt) := by
  decide

/-- C4, amended: for every receipt whose item prices are finite, not negative and
at most `2^63`, and for which the exact sum of the seven rule values (rule 5 taken
as the exact sum of its per-item points) does not exceed the largest `int`, each
of the seven rule functions returns a value `≥ 0` and so does `CalculatePoints`. -/
theorem C4_points_nonneg_of_nonneg_prices (u : UnicodeTables) (indef : F64 → Int) (r : Receipt)
    (hprice : ∀ item ∈ r.Items.getD [], F64.between 0 9223372036854775808 item.Price = true)
    (hfit : CalculateRetailerNamePoints u r + AddRoundDollarPoints r +
        AddQuarterDollarPoints r + CalculatePurchaseItemsPoints r +
        ((r.Items.getD []).map (itemDescriptionPoints indef)).sum +
        AddOddPurchaseDayPoints r + AddPurchaseTimePoints r ≤ maxInt64) :
    0 ≤ CalculateRetailerNamePoints u r ∧ 0 ≤ AddRoundDollarPoints r ∧
      0 ≤ AddQuarterDollarPoints r ∧ 0 ≤ CalculatePurchaseItemsPoints r ∧
      0 ≤ CalculateItemDescriptionPoints indef r ∧ 0 ≤ AddOddPurchaseDayPoints r ∧
      0 ≤ AddPurchaseTimePoints r ∧ 0 ≤ CalculatePoints u indef r := by
  obtain ⟨h1, h2, h3, h4, h6, h7⟩ := other_rules_nonneg u r
  have hs := sum_itemDescriptionPoints_nonneg indef (r.Items.getD []) hprice
  have h5 : CalculateItemDescriptionPoints indef r =
      ((r.Items.getD []).map (itemDescriptionPoints indef)).sum := by
    rw [descriptionPoints_eq_sum]
    exact wrapInt64_of_range (by unfold minInt64; omega) (by omega)
  have ht : CalculatePoints u indef r =
      CalculateRetailerNamePoints u r + AddRoundDollarPoints r +
        AddQuarterDollarPoints r + CalculatePurchaseItemsPoints r +
        ((r.Items.getD []).map (itemDescriptionPoints indef)).sum +
        AddOddPurchaseDayPoints r + AddPurchaseTimePoints r := by
    rw [CalculatePoints_eq_wrap, h5]
    exact wrapInt64_of_range (by unfold minInt64; omega) hfit
  refine ⟨h1, h2, h3, h4, ?_, h6, h7, ?_⟩
  · rw [h5]; exact hs
  · rw [ht]; omega

set_option exponentiation.threshold 5000 in
/-- C4, amended, at the first receipt of the repository's tests: its prices
are in range, its rule values add up to 39, and every rule value and the total
are `≥ 0`. -/
theorem C4_points_nonneg_witness :
    (∀ item ∈ testReceipt0.Items.getD [],
        F64.between 0 9223372036854775808 item.Price = true)
    ∧ CalculatePoints latin1Tables amd64Indefinite testReceipt0 = 39
    ∧ (0 ≤ CalculateRetailerNamePoints latin1Tables testReceipt0 ∧
        0 ≤ AddRoundDollarPoints testReceipt0 ∧ 0 ≤ AddQuarterDollarPoints testReceipt0 ∧
        0 ≤ CalculatePurchaseItemsPoints testReceipt0 ∧
        0 ≤ CalculateItemDescriptionPoints amd64Indefinite testReceipt0 ∧
        0 ≤ AddOddPurchaseDayPoints testReceipt0 ∧ 0 ≤ AddPurchaseTimePoints testReceipt0 ∧
        0 ≤ CalculatePoints latin1Tables amd64Indefinite testReceipt0) :=
  ⟨by decide, by decide,
   C4_points_nonneg_of_nonneg_prices latin1Tables amd64Indefinite testReceipt0
     (by decide) (by decide)⟩

/-! ## Calendar: from a date to its day number and back -/

/-- The cycles of a year: `daysSinceEpoch` splits `year - 1` into 400-, 100-, 4-
and 1-year cycles, and the year is a leap year exactly when it ends a 4-year
cycle that does not end a 100-year cycle short of a 400-year cycle. -/
theorem daysSinceEpoch_cycles (year : Int) :
    ∃ a b c e : Int, (0 ≤ b ∧ b ≤ 3) ∧ (0 ≤ c ∧ c ≤ 24) ∧ (0 ≤ e ∧ e ≤ 3) ∧
      year = 400 * a + 100 * b + 4 * c + e + 1 ∧
      daysSinceEpoch year = 146097 * a + 36524 * b + 1461 * c + 365 * e ∧
      (isLeap year = true ↔ e = 3 ∧ (c ≠ 24 ∨ b = 3)) := by
  refine ⟨(year - 1) / 400, (year - 1 - 400 * ((year - 1) / 400)) / 100,
    (year - 1 - 400 * ((year - 1) / 400) -
      100 * ((year - 1 - 400 * ((year - 1) / 400)) / 100)) / 4,
    year - 1 - 400 * ((year - 1) / 400) -
      100 * ((year - 1 - 400 * ((year - 1) / 400)) / 100) -
      4 * ((year - 1 - 400 * ((year - 1) / 400) -
        100 * ((year - 1 - 400 * ((year - 1) / 400)) / 100)) / 4),
    by omega, by omega, by omega, by omega, rfl, ?_⟩
  simp only [isLeap, Bool.and_eq_true, Bool.or_eq_true, decide_eq_true_eq]
  omega

/-- Cutting off 100-year cycles: the last cycle of four is one day longer, which
`n -= n >> 2` makes up for. -/
theorem cut_century (b r : Int) (hb : 0 ≤ b ∧ b ≤ 3)
    (hr : 0 ≤ r ∧ r ≤ 36524 ∧ (r = 36524 → b = 3)) :
    (36524 * b + r) / 36524 - (36524 * b + r) / 36524 / 4 = b := by
  omega

/-- The first half of `absDate` on a day number assembled from year cycles and
a day of the year. -/
theorem yearDay_of_cycles (a b c e yday : Int) (hb : 0 ≤ b ∧ b ≤ 3) (hc : 0 ≤ c ∧ c ≤ 24)
    (he : 0 ≤ e ∧ e ≤ 3) (h0 : 0 ≤ yday)
    (h1 : yday ≤ 364 ∨ (yday = 365 ∧ e = 3 ∧ (c ≠ 24 ∨ b = 3))) :
    yearDay (146097 * a + 36524 * b + 1461 * c + 365 * e + yday) =
      (400 * a + 100 * b + 4 * c + e + 1, yday) := by
  have r3 : 0 ≤ 365 * e + yday ∧ 365 * e + yday ≤ 1460 ∧
      (365 * e + yday = 1460 → yday = 365) := by omega
  have r2 : 0 ≤ 1461 * c + 365 * e + yday ∧ 1461 * c + 365 * e + yday ≤ 36524 ∧
      (1461 * c + 365 * e + yday = 36524 → b = 3) := by omega
  have r1 : 0 ≤ 36524 * b + 1461 * c + 365 * e + yday ∧
      36524 * b + 1461 * c + 365 * e + yday ≤ 146096 := by omega
  have k1 : (146097 * a + 36524 * b + 1461 * c + 365 * e + yday) / 146097 = a := by omega
  have hd1 : 146097 * a + 36524 * b + 1461 * c + 365 * e + yday - 146097 * a =
      36524 * b + 1461 * c + 365 * e + yday := by omega
  have k2 : (36524 * b + 1461 * c + 365 * e + yday) / 36524 -
      (36524 * b + 1461 * c + 365 * e + yday) / 36524 / 4 = b := by
    have hs : 36524 * b + 1461 * c + 365 * e + yday =
        36524 * b + (1461 * c + 365 * e + yday) := by ring
    rw [hs]
    exact cut_century b _ hb r2
  have hd2 : 36524 * b + 1461 * c + 365 * e + yday - 36524 * b =
      1461 * c + 365 * e + yday := by omega
  have k3 : (1461 * c + 365 * e + yday) / 1461 = c := by omega
  have hd3 : 1461 * c + 365 * e + yday - 1461 * c = 365 * e + yday := by omega
  have k4 : (365 * e + yday) / 365 - (365 * e + yday) / 365 / 4 = e := by omega
  have hd4 : 365 * e + yday - 365 * e = yday := by omega
  simp only [yearDay, k1, hd1, k2, hd2, k3, hd3, k4, hd4]

/-- The first half of `absDate` undoes `daysSinceEpoch` plus a day of the year. -/
theorem yearDay_daysSinceEpoch (year yday : Int) (h0 : 0 ≤ yday)
    (h1 : yday ≤ 364 ∨ (yday = 365 ∧ isLeap year = true)) :
    yearDay (daysSinceEpoch year + yday) = (year, yday) := by
  obtain ⟨a, b, c, e, hb, hc, he, hy, hd, hl⟩ := daysSinceEpoch_cycles year
  rw [hd, hy]
  apply yearDay_of_cycles a b c e yday hb hc he h0
  rcases h1 with h | ⟨h, hleap⟩
  · exact Or.inl h
  · exact Or.inr ⟨h, hl.1 hleap⟩
/-- The month estimate of `absDate` finds the month and day from which a day of
a non-leap year was counted through the table `daysBefore`. -/
theorem monthDay_false_inv (m d : Int) (hm : 1 ≤ m ∧ m ≤ 12) (hd1 : 1 ≤ d)
    (hd2 : daysBefore (m - 1) + d ≤ daysBefore m) :
    monthDay false (daysBefore (m - 1) + d - 1) = (m, d) := by
  obtain ⟨t0, t1, t2, t3, t4, t5, t6, t7, t8, t9, t10, t11, t12⟩ := daysBefore_table
  obtain ⟨hm1, hm2⟩ := hm
  have key : ∀ day k : Int, day = daysBefore (m - 1) + d - 1 → k = day / 31 →
      (if daysBefore (k + 1) ≤ day then (k + 2, day - daysBefore (k + 1) + 1)
        else (k + 1, day - daysBefore k + 1)) = (m, d) := by
    intro day k hday hk
    have hk0 : k = m - 1 ∨ k = m - 2 := by
      interval_cases m <;>
        norm_num [t0, t1, t2, t3, t4, t5, t6, t7, t8, t9, t10, t11, t12] at hd2 hday <;> omega
    rcases hk0 with hk0 | hk0 <;> subst hk0 <;> interval_cases m <;>
      norm_num [t0, t1, t2, t3, t4, t5, t6, t7, t8, t9, t10, t11, t12] at hd2 hday hk ⊢ <;>
      first
        | omega
        | (split_ifs <;> first
            | (exfalso; omega)
            | (simp only [Prod.mk.injEq, true_and]; omega))
  simp only [monthDay, Bool.false_and, Bool.false_eq_true, if_false]
  exact key _ _ rfl rfl
/-- In a leap year `absDate` treats February 29 apart and finds every other day
as in a non-leap year, once the leap day is taken out. -/
theorem monthDay_true (yday : Int) :
    monthDay true yday =
      if yday = 59 then (2, 29) else monthDay false (if 59 < yday then yday - 1 else yday) := by
  simp only [monthDay, Bool.true_and, Bool.false_and, decide_eq_true_eq, Bool.false_eq_true,
    if_false]

/-- The second half of `absDate` finds the month and day from which `time.Date`
counted a day of the year. -/
theorem monthDay_inv (leap : Bool) (m d : Int) (hm : 1 ≤ m ∧ m ≤ 12) (hd1 : 1 ≤ d)
    (hd2 : d ≤ if m = 2 ∧ leap = true then 29 else daysBefore m - daysBefore (m - 1)) :
    monthDay leap (daysBefore (m - 1) + (if leap && decide (3 ≤ m) then 1 else 0) + (d - 1)) =
      (m, d) := by
  obtain ⟨t0, t1, t2, t3, t4, t5, t6, t7, t8, t9, t10, t11, t12⟩ := daysBefore_table
  cases leap with
  | false =>
    simp only [Bool.false_and, Bool.false_eq_true, if_false, and_false, add_zero] at hd2 ⊢
    have h := monthDay_false_inv m d hm hd1 (by omega)
    rw [show daysBefore (m - 1) + (d - 1) = daysBefore (m - 1) + d - 1 by ring]
    exact h
  | true =>
    simp only [Bool.true_and, decide_eq_true_eq, and_true] at hd2 ⊢
    rw [monthDay_true]
    by_cases h3 : 3 ≤ m
    · have hm2 : ¬ m = 2 := by omega
      rw [if_neg hm2] at hd2
      rw [if_pos h3]
      have hb : 59 ≤ daysBefore (m - 1) := by
        obtain ⟨hm1, hm12⟩ := hm
        interval_cases m <;>
          norm_num [t0, t1, t2, t3, t4, t5, t6, t7, t8, t9, t10, t11, t12]
      rw [if_neg (by omega), if_pos (by omega)]
      have h := monthDay_false_inv m d hm hd1 (by omega)
      rw [show daysBefore (m - 1) + 1 + (d - 1) - 1 = daysBefore (m - 1) + d - 1 by ring]
      exact h
    · rw [if_neg h3, add_zero]
      have hm12 : m = 1 ∨ m = 2 := by omega
      rcases hm12 with rfl | rfl
      · norm_num [t0, t1] at hd2 ⊢
        rw [if_neg (by omega), if_neg (by omega)]
        have h := monthDay_false_inv 1 d (by decide) hd1 (by norm_num [t0, t1]; omega)
        norm_num [t0] at h
        exact h
      · norm_num [t1, t2] at hd2 ⊢
        by_cases h29 : d = 29
        · subst h29; norm_num
        · rw [if_neg (by omega), if_neg (by omega)]
          have h := monthDay_false_inv 2 d (by decide) hd1 (by norm_num [t1, t2]; omega)
          norm_num [t1] at h
          rw [show (31 : Int) + (d - 1) = 31 + d - 1 by ring]
          exact h

/-- The helper `absDate` undoes the day count of `time.Date`: on the day number of
a date that exists it returns that date. -/
theorem absDate_inv (year month day : Int) (hm : 1 ≤ month ∧ month ≤ 12) (hd1 : 1 ≤ day)
    (hd2 : day ≤ daysIn month year) :
    absDate (daysSinceEpoch year + daysBefore (month - 1) +
      (if isLeap year && decide (3 ≤ month) then 1 else 0) + (day - 1)) = (year, month, day) := by
  obtain ⟨t0, t1, t2, t3, t4, t5, t6, t7, t8, t9, t10, t11, t12⟩ := daysBefore_table
  have hd2' : day ≤ if month = 2 ∧ isLeap year = true then 29
      else daysBefore month - daysBefore (month - 1) := hd2
  have hmd := monthDay_inv (isLeap year) month day hm hd1 hd2'
  have hy0 : 0 ≤ daysBefore (month - 1) +
      (if isLeap year && decide (3 ≤ month) then 1 else 0) + (day - 1) := by
    obtain ⟨hm1, hm12⟩ := hm
    have : 0 ≤ daysBefore (month - 1) := by
      interval_cases month <;>
        norm_num [t0, t1, t2, t3, t4, t5, t6, t7, t8, t9, t10, t11, t12]
    split <;> omega
  have hy1 : daysBefore (month - 1) +
      (if isLeap year && decide (3 ≤ month) then 1 else 0) + (day - 1) ≤ 364 ∨
      (daysBefore (month - 1) +
        (if isLeap year && decide (3 ≤ month) then 1 else 0) + (day - 1) = 365 ∧
        isLeap year = true) := by
    obtain ⟨hm1, hm12⟩ := hm
    cases hl : isLeap year with
    | false =>
      left
      rw [hl] at hd2'
      simp only [Bool.false_and, Bool.false_eq_true, if_false, and_false, add_zero] at hd2' ⊢
      interval_cases month <;>
        norm_num [t0, t1, t2, t3, t4, t5, t6, t7, t8, t9, t10, t11, t12] at hd2' ⊢ <;> omega
    | true =>
      rw [hl] at hd2'
      simp only [Bool.true_and, decide_eq_true_eq, and_true] at hd2' ⊢
      interval_cases month <;>
        norm_num [t0, t1, t2, t3, t4, t5, t6, t7, t8, t9, t10, t11, t12] at hd2' ⊢ <;> omega
  have hyd := yearDay_daysSinceEpoch year _ hy0 hy1
  have harg : daysSinceEpoch year + daysBefore (month - 1) +
      (if isLeap year && decide (3 ≤ month) then 1 else 0) + (day - 1) =
      daysSinceEpoch year + (daysBefore (month - 1) +
      (if isLeap year && decide (3 ≤ month) then 1 else 0) + (day - 1)) := by ring
  rw [harg]
  simp only [absDate, hyd, hmd]

/-- `time.Date` on a date that exists and a clock reading in range: no value is
carried over, and the time is that second of that day. -/
theorem Date_in_range (year month day hour min sec nsec : Int) (loc : Location)
    (hm : 1 ≤ month ∧ month ≤ 12) (hh : 0 ≤ hour ∧ hour < 24) (hmi : 0 ≤ min ∧ min < 60)
    (hs : 0 ≤ sec ∧ sec < 60) (hn : 0 ≤ nsec ∧ nsec < 1000000000) :
    Date year month day hour min sec nsec loc =
      ⟨(daysSinceEpoch year + daysBefore (month - 1) +
          (if isLeap year && decide (3 ≤ month) then 1 else 0) + (day - 1)) * 86400 +
          hour * 3600 + min * 60 + sec - unixToInternal - loc.offset, nsec.toNat, loc⟩ := by
  have e1 : (month - 1) / 12 = 0 := by omega
  have e2 : (month - 1) % 12 = month - 1 := by omega
  have e3 : nsec / 1000000000 = 0 := by omega
  have e4 : nsec % 1000000000 = nsec := by omega
  have e5 : sec / 60 = 0 := by omega
  have e6 : sec % 60 = sec := by omega
  have e7 : min / 60 = 0 := by omega
  have e8 : min % 60 = min := by omega
  have e9 : hour / 24 = 0 := by omega
  have e10 : hour % 24 = hour := by omega
  have e11 : month - 1 + 1 = month := by omega
  simp only [Date, norm, e1, e2, e3, e4, e5, e6, e7, e8, e9, e10, e11, add_zero]

/-- The date and clock reading of a time built by `time.Date` from a date
that exists and a clock reading in range are the ones it was built from. -/
theorem Date_fields (year month day hour min sec nsec : Int) (loc : Location)
    (hm : 1 ≤ month ∧ month ≤ 12) (hd : 1 ≤ day ∧ day ≤ daysIn month year)
    (hh : 0 ≤ hour ∧ hour < 24) (hmi : 0 ≤ min ∧ min < 60)
    (hs : 0 ≤ sec ∧ sec < 60) (hn : 0 ≤ nsec ∧ nsec < 1000000000) :
    (Date year month day hour min sec nsec loc).Year = year ∧
    (Date year month day hour min sec nsec loc).Month = month ∧
    (Date year month day hour min sec nsec loc).Day = day ∧
    (Date year month day hour min sec nsec loc).Hour = hour ∧
    (Date year month day hour min sec nsec loc).Minute = min ∧
    (Date year month day hour min sec nsec loc).Second = sec ∧
    (Date year month day hour min sec nsec loc).Nanosecond = nsec ∧
    (Date year month day hour min sec nsec loc).Location = loc := by
  rw [Date_in_range year month day hour min sec nsec loc hm hh hmi hs hn]
  have hinv := absDate_inv year month day hm hd.1 hd.2
  generalize daysSinceEpoch year + daysBefore (month - 1) +
      (if isLeap year && decide (3 ≤ month) then 1 else 0) + (day - 1) = D at hinv
  have habs : (Time.mk (D * 86400 + hour * 3600 + min * 60 + sec - unixToInternal - loc.offset)
      nsec.toNat loc).abs = D * 86400 + (hour * 3600 + min * 60 + sec) := by
    simp only [Time.abs]; omega
  have hday : (D * 86400 + (hour * 3600 + min * 60 + sec)) / 86400 = D := by omega
  simp only [Time.Year, Time.Month, Time.Day, Time.Hour, Time.Minute, Time.Second,
    Time.Nanosecond, Time.Location, habs, hday, hinv]
  refine ⟨trivial, trivial, trivial, by omega, by omega, by omega, by omega, trivial⟩


/-! ## The parsers read the literals of the specification -/

theorem digitValue_range (c : Char) (d : Int) (h : digitValue c = some d) : 0 ≤ d ∧ d ≤ 9 := by
  unfold digitValue at h
  split at h
  · simp only [Option.some.injEq] at h
    omega
  · cases h

theorem digitValue_colon : digitValue ':' = none := by decide

theorem digitValue_dash : digitValue '-' = none := by decide

theorem decimal_one (a : Char) : decimal [a] = digitValue a := by
  cases h : digitValue a <;> simp [decimal, h]

theorem decimal_two (a b : Char) :
    decimal [a, b] =
      match digitValue a, digitValue b with
      | some x, some y => some (x * 10 + y)
      | _, _ => none := by
  cases h1 : digitValue a <;> cases h2 : digitValue b <;> simp [decimal, h1, h2]

theorem decimal_four (a b c d : Char) :
    decimal [a, b, c, d] =
      match digitValue a, digitValue b, digitValue c, digitValue d with
      | some x, some y, some z, some w => some (x * 1000 + y * 100 + z * 10 + w)
      | _, _, _, _ => none := by
  cases h1 : digitValue a <;> cases h2 : digitValue b <;> cases h3 : digitValue c <;>
    cases h4 : digitValue d <;> simp [decimal, h1, h2, h3, h4]
  ring

/-- `getnum` with two digits required reads the number written by the first two
characters. -/
theorem getnum_fixed (a b : Char) (rest : List Char) :
    getnum (a :: b :: rest) true = (decimal [a, b]).map (fun n => (n, rest)) := by
  rw [decimal_two]
  cases h1 : digitValue a <;> cases h2 : digitValue b <;> simp [getnum, h1, h2]

theorem getnum_fixed_short (s : List Char) (h : s.length < 2) : getnum s true = none := by
  rcases s with _ | ⟨a, _ | ⟨b, rest⟩⟩
  · rfl
  · cases h1 : digitValue a <;> simp [getnum, h1]
  · simp at h; omega

theorem getyear_cons (a b c d : Char) (rest : List Char) :
    getyear (a :: b :: c :: d :: rest) = (decimal [a, b, c, d]).map (fun n => (n, rest)) := by
  rw [decimal_four]
  cases h1 : digitValue a <;> cases h2 : digitValue b <;> cases h3 : digitValue c <;>
    cases h4 : digitValue d <;> simp [getyear, h1, h2, h3, h4]

theorem getyear_short (s : List Char) (h : s.length < 4) : getyear s = none := by
  rcases s with _ | ⟨a, _ | ⟨b, _ | ⟨c, _ | ⟨d, rest⟩⟩⟩⟩ <;> first | rfl | (simp at h; omega)

theorem isLeap_eq_leapYear (year : Int) : isLeap year = leapYear year := by
  simp only [isLeap, leapYear]
  by_cases h4 : year % 4 = 0 <;> by_cases h100 : year % 100 = 0 <;>
    by_cases h400 : year % 400 = 0 <;> simp [h4, h100, h400] <;> omega

/-- The helper `daysIn` of package `time` gives the days of the calendar month. -/
theorem daysIn_eq_calendarDays (year month : Int) (hm : 1 ≤ month ∧ month ≤ 12) :
    daysIn month year = calendarDays year month := by
  obtain ⟨t0, t1, t2, t3, t4, t5, t6, t7, t8, t9, t10, t11, t12⟩ := daysBefore_table
  obtain ⟨h1, h12⟩ := hm
  simp only [daysIn, calendarDays, isLeap_eq_leapYear]
  interval_cases month <;>
    norm_num [t0, t1, t2, t3, t4, t5, t6, t7, t8, t9, t10, t11, t12]

theorem parseDate_shape (y1 y2 y3 y4 s1 m1 m2 s2 d1 d2 : Char) (rest : List Char) :
    parseDate (String.mk (y1 :: y2 :: y3 :: y4 :: s1 :: m1 :: m2 :: s2 :: d1 :: d2 :: rest)) =
      match decimal [y1, y2, y3, y4], decimal [m1, m2], decimal [d1, d2] with
      | some year, some month, some day =>
        if s1 = '-' ∧ s2 = '-' ∧ 1 ≤ month ∧ month ≤ 12 ∧ rest = [] ∧ 1 ≤ day ∧
            day ≤ daysIn month year then some (Date year month day 0 0 0 0 UTC)
        else none
      | _, _, _ => none := by
  simp only [parseDate, getyear_cons]
  cases hY : decimal [y1, y2, y3, y4] with
  | none => simp
  | some year =>
    simp only [Option.map_some']
    by_cases hs1 : s1 = '-'
    · simp only [skipChar, hs1, if_true, getnum_fixed]
      cases hM : decimal [m1, m2] with
      | none => simp
      | some month =>
        simp only [Option.map_some']
        by_cases hs2 : s2 = '-'
        · simp only [hs2, if_true, getnum_fixed]
          cases hD : decimal [d1, d2] with
          | none => simp
          | some day =>
            simp only [Option.map_some', true_and]
            by_cases hm : month ≤ 0 ∨ 12 < month
            · rw [if_pos hm, if_neg (by omega)]
            · rw [if_neg hm]
              by_cases hr : rest = []
              · by_cases hd : day < 1 ∨ daysIn month year < day
                · simp only [hr, ne_eq, not_true_eq_false, if_false, hd, if_true]
                  rw [if_neg (by omega)]
                · simp only [hr, ne_eq, not_true_eq_false, if_false, hd]
                  rw [if_pos ⟨by omega, by omega, trivial, by omega, by omega⟩]
              · simp only [ne_eq, hr, not_false_eq_true, if_true]
                rw [if_neg (fun h => h.2.2.1)]
        · simp only [hs2, if_false]
          cases hD : decimal [d1, d2] <;> simp [hs2]
    · simp only [skipChar, hs1, if_false]
      cases hM : decimal [m1, m2] <;> cases hD : decimal [d1, d2] <;> simp [hs1]

theorem getnum_nil (f : Bool) : getnum [] f = none := rfl

theorem getnum_single_fixed (a : Char) : getnum [a] true = none := by
  cases h : digitValue a <;> simp [getnum, h]

/-- The date parser rejects an input that ends after the month. -/
theorem parseDate_short_a (year : Int) (s1 : Char) (v : List Char) (hv : v.length < 2) :
    (match (if s1 = '-' then some v else none) with
      | none => none
      | some v2 =>
        match getnum v2 true with
        | none => none
        | some (month, v3) =>
          if month ≤ 0 ∨ 12 < month then none
          else
            match skipChar '-' v3 with
            | none => none
            | some v4 =>
              match getnum v4 true with
              | none => none
              | some (day, v5) =>
                if v5 ≠ [] then none
                else if day < 1 ∨ daysIn month year < day then none
                else some (Date year month day 0 0 0 0 UTC)) = none := by
  by_cases hs1 : s1 = '-'
  · simp only [hs1, if_true, getnum_fixed_short v hv]
  · simp only [hs1, if_false]

/-- The date parser rejects an input that ends before the day is complete. -/
theorem parseDate_short_b (year : Int) (s1 m1 m2 : Char) (v : List Char)
    (hv : v = [] ∨ ∃ s2 w, v = s2 :: w ∧ w.length < 2) :
    (match (if s1 = '-' then some (m1 :: m2 :: v) else none) with
      | none => none
      | some v2 =>
        match getnum v2 true with
        | none => none
        | some (month, v3) =>
          if month ≤ 0 ∨ 12 < month then none
          else
            match skipChar '-' v3 with
            | none => none
            | some v4 =>
              match getnum v4 true with
              | none => none
              | some (day, v5) =>
                if v5 ≠ [] then none
                else if day < 1 ∨ daysIn month year < day then none
                else some (Date year month day 0 0 0 0 UTC)) = none := by
  by_cases hs1 : s1 = '-'
  · simp only [hs1, if_true, getnum_fixed]
    cases decimal [m1, m2] with
    | none => rfl
    | some month =>
      simp only [Option.map_some']
      by_cases hm : month ≤ 0 ∨ 12 < month
      · rw [if_pos hm]
      · rw [if_neg hm]
        rcases hv with rfl | ⟨s2, w, rfl, hw⟩
        · rfl
        · simp only [skipChar]
          by_cases hs2 : s2 = '-'
          · simp only [hs2, if_true, getnum_fixed_short w hw]
          · simp only [hs2, if_false]
  · simp only [hs1, if_false]

/-- The date parser agrees with the reading of a `YYYY-MM-DD` literal: it
succeeds exactly on such literals and returns midnight UTC of the day written. -/
theorem parseDate_eq (s : String) :
    parseDate s =
      (readDateLiteral s).map (fun ymd => Date ymd.1 ymd.2.1 ymd.2.2 0 0 0 0 UTC) := by
  obtain ⟨l⟩ := s
  rcases l with _ | ⟨y1, _ | ⟨y2, _ | ⟨y3, _ | ⟨y4, _ | ⟨s1, _ | ⟨m1, _ | ⟨m2, _ | ⟨s2,
    _ | ⟨d1, _ | ⟨d2, rest⟩⟩⟩⟩⟩⟩⟩⟩⟩⟩
  · rfl
  · rfl
  · rfl
  · rfl
  · simp only [parseDate, getyear_cons, readDateLiteral]
    cases decimal [y1, y2, y3, y4] <;> rfl
  · simp only [parseDate, getyear_cons, readDateLiteral]
    cases decimal [y1, y2, y3, y4] with
    | none => rfl
    | some year =>
      simp only [Option.map_some', Option.map_none', skipChar]
      exact parseDate_short_a year s1 [] (by decide)
  · simp only [parseDate, getyear_cons, readDateLiteral]
    cases decimal [y1, y2, y3, y4] with
    | none => rfl
    | some year =>
      simp only [Option.map_some', Option.map_none', skipChar]
      exact parseDate_short_a year s1 [m1] (by simp)
  · simp only [parseDate, getyear_cons, readDateLiteral]
    cases decimal [y1, y2, y3, y4] with
    | none => rfl
    | some year =>
      simp only [Option.map_some', Option.map_none', skipChar]
      exact parseDate_short_b year s1 m1 m2 [] (Or.inl rfl)
  · simp only [parseDate, getyear_cons, readDateLiteral]
    cases decimal [y1, y2, y3, y4] with
    | none => rfl
    | some year =>
      simp only [Option.map_some', Option.map_none']
      exact parseDate_short_b year s1 m1 m2 [s2] (Or.inr ⟨s2, [], rfl, by decide⟩)
  · simp only [parseDate, getyear_cons, readDateLiteral]
    cases decimal [y1, y2, y3, y4] with
    | none => rfl
    | some year =>
      simp only [Option.map_some', Option.map_none']
      exact parseDate_short_b year s1 m1 m2 [s2, d1] (Or.inr ⟨s2, [d1], rfl, by simp⟩)
  · rw [parseDate_shape]
    rcases rest with _ | ⟨x, rest⟩
    · simp only [readDateLiteral]
      cases hY : decimal [y1, y2, y3, y4] <;> cases hM : decimal [m1, m2] <;>
        cases hD : decimal [d1, d2] <;> simp only [Option.map_none', Option.map_some']
      rename_i year month day
      by_cases hc : s1 = '-' ∧ s2 = '-' ∧ 1 ≤ month ∧ month ≤ 12 ∧ 1 ≤ day ∧
          day ≤ calendarDays year month
      · rw [if_pos hc, if_pos ⟨hc.1, hc.2.1, hc.2.2.1, hc.2.2.2.1, trivial, hc.2.2.2.2.1, by
          rw [daysIn_eq_calendarDays year month ⟨hc.2.2.1, hc.2.2.2.1⟩]; exact hc.2.2.2.2.2⟩]
        rfl
      · rw [if_neg hc, if_neg]
        · rfl
        · intro h
          exact hc ⟨h.1, h.2.1, h.2.2.1, h.2.2.2.1, h.2.2.2.2.2.1, by
            rw [← daysIn_eq_calendarDays year month ⟨h.2.2.1, h.2.2.2.1⟩]; exact h.2.2.2.2.2.2⟩
    · simp only [readDateLiteral]
      cases hY : decimal [y1, y2, y3, y4] <;> cases hM : decimal [m1, m2] <;>
        cases hD : decimal [d1, d2] <;> simp

theorem decimal_two_range (a b : Char) (n : Int) (h : decimal [a, b] = some n) :
    0 ≤ n ∧ n ≤ 99 := by
  rw [decimal_two] at h
  cases h1 : digitValue a with
  | none => simp [h1] at h
  | some x =>
    cases h2 : digitValue b with
    | none => simp [h1, h2] at h
    | some y =>
      simp only [h1, h2, Option.some.injEq] at h
      have := digitValue_range a x h1
      have := digitValue_range b y h2
      omega

theorem digitValue_ne_colon (c : Char) (d : Int) (h : digitValue c = some d) : c ≠ ':' := by
  intro hc
  rw [hc, digitValue_colon] at h
  cases h

/-- `getnum` with one or two digits allowed. -/
theorem getnum_free (a b : Char) (rest : List Char) :
    getnum (a :: b :: rest) false =
      match digitValue a, digitValue b with
      | some x, some y => some (x * 10 + y, rest)
      | some x, none => some (x, b :: rest)
      | none, _ => none := by
  cases h1 : digitValue a <;> cases h2 : digitValue b <;> simp [getnum, h1, h2]

/-- The tail of the clock parser after the hour: a colon, two digits of minute
and nothing else. -/
theorem parseClock_tail (hour : Int) (v1 : List Char) :
    (match skipChar ':' v1 with
      | none => none
      | some v2 =>
        match getnum v2 true with
        | none => none
        | some (min, v3) =>
          if min < 0 ∨ 60 ≤ min then none
          else if v3 ≠ [] then none
          else some (Date 0 1 1 hour min 0 0 UTC)) =
      match v1 with
      | [sep, m1, m2] =>
        match decimal [m1, m2] with
        | some min => if sep = ':' ∧ min ≤ 59 then some (Date 0 1 1 hour min 0 0 UTC) else none
        | none => none
      | _ => none := by
  rcases v1 with _ | ⟨sep, _ | ⟨m1, _ | ⟨m2, _ | ⟨x, rest⟩⟩⟩⟩
  · rfl
  · simp only [skipChar]
    by_cases hs : sep = ':'
    · simp only [hs, if_true, getnum_nil]
    · simp only [hs, if_false]
  · simp only [skipChar]
    by_cases hs : sep = ':'
    · simp only [hs, if_true, getnum_single_fixed]
    · simp only [hs, if_false]
  · simp only [skipChar]
    by_cases hs : sep = ':'
    · simp only [hs, if_true, getnum_fixed, true_and]
      cases hM : decimal [m1, m2] with
      | none => rfl
      | some min =>
        have hr := decimal_two_range m1 m2 min hM
        simp only [Option.map_some', ne_eq, not_true_eq_false, if_false]
        by_cases hm : min ≤ 59
        · rw [if_neg (by omega), if_pos hm]
        · rw [if_pos (by omega), if_neg hm]
    · simp only [hs, if_false, false_and]
      cases decimal [m1, m2] <;> rfl
  · simp only [skipChar]
    by_cases hs : sep = ':'
    · simp only [hs, if_true, getnum_fixed]
      cases hM : decimal [m1, m2] with
      | none => rfl
      | some min =>
        simp only [Option.map_some', ne_eq, reduceCtorEq, not_false_eq_true, if_true]
        split_ifs <;> rfl
    · simp only [hs, if_false]

/-- The clock parser after its hour has been read. -/
theorem parseClock_step (l : List Char) :
    parseClock (String.mk l) =
      match getnum l false with
      | none => none
      | some (hour, v1) =>
        if hour < 0 ∨ 24 ≤ hour then none
        else
          match v1 with
          | [sep, m1, m2] =>
            match decimal [m1, m2] with
            | some min =>
              if sep = ':' ∧ min ≤ 59 then some (Date 0 1 1 hour min 0 0 UTC) else none
            | none => none
          | _ => none := by
  simp only [parseClock]
  cases getnum l false with
  | none => rfl
  | some p =>
    obtain ⟨hour, v1⟩ := p
    simp only
    by_cases hh : hour < 0 ∨ 24 ≤ hour
    · rw [if_pos hh, if_pos hh]
    · rw [if_neg hh, if_neg hh]
      exact parseClock_tail hour v1

theorem getnum_single_free (a : Char) :
    getnum [a] false = (digitValue a).map (fun d => (d, [])) := by
  cases h : digitValue a <;> simp [getnum, h]

/-- The clock parser agrees with the reading of an `H:MM` or `HH:MM` literal. -/
theorem parseClock_eq (s : String) :
    parseClock s = (readClockLiteral s).map (fun hm => Date 0 1 1 hm.1 hm.2 0 0 UTC) := by
  obtain ⟨l⟩ := s
  rw [parseClock_step]
  rcases l with _ | ⟨c0, _ | ⟨c1, rest⟩⟩
  · rfl
  · rw [getnum_single_free]
    cases h0 : digitValue c0 with
    | none => rfl
    | some x =>
      simp only [Option.map_some']
      split_ifs <;> rfl
  · rw [getnum_free]
    cases h0 : digitValue c0 with
    | none =>
      simp only
      rcases rest with _ | ⟨c2, _ | ⟨c3, _ | ⟨c4, _ | ⟨c5, rest⟩⟩⟩⟩
      · rfl
      · rfl
      · simp [readClockLiteral, decimal_one, h0]
      · simp [readClockLiteral, readHHMM, decimal_two, h0]
      · rfl
    | some x =>
      have hx := digitValue_range c0 x h0
      cases h1 : digitValue c1 with
      | none =>
        simp only
        rw [if_neg (by omega)]
        rcases rest with _ | ⟨c2, _ | ⟨c3, _ | ⟨c4, _ | ⟨c5, rest⟩⟩⟩⟩
        · rfl
        · rfl
        · simp only [readClockLiteral, decimal_one, h0]
          cases hM : decimal [c2, c3] with
          | none => rfl
          | some min =>
            simp only
            split_ifs <;> rfl
        · simp [readClockLiteral, readHHMM, decimal_two, h0, h1]
        · rfl
      | some y =>
        have hy := digitValue_range c1 y h1
        have hc := digitValue_ne_colon c1 y h1
        simp only
        rcases rest with _ | ⟨c2, _ | ⟨c3, _ | ⟨c4, _ | ⟨c5, rest⟩⟩⟩⟩
        · split_ifs <;> rfl
        · split_ifs <;> rfl
        · simp only [readClockLiteral, decimal_one, h0]
          cases hM : decimal [c2, c3] with
          | none => simp
          | some min => simp [hc]
        · have hd : decimal [c0, c1] = some (x * 10 + y) := by
            rw [decimal_two, h0, h1]
          simp only [readClockLiteral, readHHMM, hd]
          cases hM : decimal [c3, c4] with
          | none => simp
          | some min =>
            simp only
            by_cases hh : x * 10 + y < 0 ∨ 24 ≤ x * 10 + y
            · rw [if_pos hh, if_neg (by omega)]
              rfl
            · rw [if_neg hh]
              by_cases hq : c2 = ':' ∧ min ≤ 59
              · rw [if_pos hq, if_pos ⟨hq.1, by omega, hq.2⟩]
                rfl
              · rw [if_neg hq, if_neg (fun h => hq ⟨h.1, h.2.2⟩)]
                rfl
        · split_ifs <;> rfl


/-! ## Rule 6: odd purchase day -/

/-- C11: `AddOddPurchaseDayPoints` returns 6 when the day of the month of the
purchase date is odd and 0 when it is even. The day of the month of a date built
by `time.Date` from a year, a month and a day of that month is the day written,
so the rule gives 6 on an odd day written and 0 on an even one: 2023-01-01 gives
6, 2023-01-02 and 2023-01-10 give 0. -/
theorem C11_AddOddPurchaseDayPoints_odd_day (r : Receipt) :
    (Odd r.PurchaseDate.Day → AddOddPurchaseDayPoints r = 6)
    ∧ (Even r.PurchaseDate.Day → AddOddPurchaseDayPoints r = 0)
    ∧ (∀ year month day hour min sec nsec : Int, ∀ loc : Location,
        1 ≤ month ∧ month ≤ 12 → 1 ≤ day ∧ day ≤ daysIn month year →
        0 ≤ hour ∧ hour < 24 → 0 ≤ min ∧ min < 60 → 0 ≤ sec ∧ sec < 60 →
        0 ≤ nsec ∧ nsec < 1000000000 →
        AddOddPurchaseDayPoints { r with PurchaseDate := Date year month day hour min sec nsec loc } =
          if day % 2 = 1 then 6 else 0)
    ∧ AddOddPurchaseDayPoints { r with PurchaseDate := Date 2023 1 1 0 0 0 0 UTC } = 6
    ∧ AddOddPurchaseDayPoints { r with PurchaseDate := Date 2023 1 2 0 0 0 0 UTC } = 0
    ∧ AddOddPurchaseDayPoints { r with PurchaseDate := Date 2023 1 10 0 0 0 0 UTC } = 0 := by
  have key : ∀ year month day hour min sec nsec : Int, ∀ loc : Location,
      1 ≤ month ∧ month ≤ 12 → 1 ≤ day ∧ day ≤ daysIn month year →
      0 ≤ hour ∧ hour < 24 → 0 ≤ min ∧ min < 60 → 0 ≤ sec ∧ sec < 60 →
      0 ≤ nsec ∧ nsec < 1000000000 →
      AddOddPurchaseDayPoints { r with PurchaseDate := Date year month day hour min sec nsec loc } =
        if day % 2 = 1 then 6 else 0 := by
    intro year month day hour min sec nsec loc hm hd hh hmi hs hn
    have hday := (Date_fields year month day hour min sec nsec loc hm hd hh hmi hs hn).2.2.1
    simp only [AddOddPurchaseDayPoints, hday]
    by_cases h : day % 2 = 1
    · rw [if_pos (by omega), if_pos h]
    · rw [if_neg (by omega), if_neg h]
  refine ⟨?_, ?_, key, ?_, ?_, ?_⟩
  · intro h
    have h1 := Int.odd_iff.1 h
    simp only [AddOddPurchaseDayPoints]
    rw [if_pos (by omega)]
  · intro h
    have h1 := Int.even_iff.1 h
    simp only [AddOddPurchaseDayPoints]
    rw [if_neg (by omega)]
  · rw [key 2023 1 1 0 0 0 0 UTC (by decide) (by decide) (by decide) (by decide) (by decide)
      (by decide)]
    rfl
  · rw [key 2023 1 2 0 0 0 0 UTC (by decide) (by decide) (by decide) (by decide) (by decide)
      (by decide)]
    rfl
  · rw [key 2023 1 10 0 0 0 0 UTC (by decide) (by decide) (by decide) (by decide) (by decide)
      (by decide)]
    rfl

/-! ## Parsing the purchase time and the purchase date -/

/-- An `HH:MM` literal is also read by the reader that allows a one-digit hour. -/
theorem readClockLiteral_of_readHHMM (s : String) (p : Int × Int) (h : readHHMM s = some p) :
    readClockLiteral s = some p := by
  obtain ⟨l⟩ := s
  rcases l with _ | ⟨c0, _ | ⟨c1, _ | ⟨c2, _ | ⟨c3, _ | ⟨c4, _ | ⟨c5, rest⟩⟩⟩⟩⟩⟩ <;>
    first
    | (simp [readHHMM] at h; done)
    | (simpa [readClockLiteral] using h)

/-- The hour and the minute read from a clock literal are in range. -/
theorem readClockLiteral_range (s : String) (hour min : Int)
    (h : readClockLiteral s = some (hour, min)) :
    0 ≤ hour ∧ hour ≤ 23 ∧ 0 ≤ min ∧ min ≤ 59 := by
  obtain ⟨l⟩ := s
  rcases l with _ | ⟨c0, _ | ⟨c1, _ | ⟨c2, _ | ⟨c3, _ | ⟨c4, _ | ⟨c5, rest⟩⟩⟩⟩⟩⟩
  · simp [readClockLiteral, readHHMM] at h
  · simp [readClockLiteral, readHHMM] at h
  · simp [readClockLiteral, readHHMM] at h
  · simp [readClockLiteral, readHHMM] at h
  · simp only [readClockLiteral, decimal_one] at h
    cases h0 : digitValue c0 with
    | none => simp [h0] at h
    | some x =>
      cases hM : decimal [c2, c3] with
      | none => simp [h0, hM] at h
      | some m =>
        have hx := digitValue_range c0 x h0
        have hm := decimal_two_range c2 c3 m hM
        simp only [h0, hM] at h
        split_ifs at h with hc
        simp only [Option.some.injEq, Prod.mk.injEq] at h
        obtain ⟨rfl, rfl⟩ := h
        omega
  · simp only [readClockLiteral, readHHMM] at h
    cases hH : decimal [c0, c1] with
    | none => simp [hH] at h
    | some x =>
      cases hM : decimal [c3, c4] with
      | none => simp [hH, hM] at h
      | some m =>
        have hx := decimal_two_range c0 c1 x hH
        have hm := decimal_two_range c3 c4 m hM
        simp only [hH, hM] at h
        split_ifs at h with hc
        simp only [Option.some.injEq, Prod.mk.injEq] at h
        obtain ⟨rfl, rfl⟩ := h
        omega
  · simp [readClockLiteral, readHHMM] at h

/-- The purchase-time parser in terms of the clock literal it reads. -/
theorem UnmarshalJSON_time_eq (b : String) :
    ReceiptPurchaseTime.UnmarshalJSON b =
      match readClockLiteral (Trim b "\"") with
      | some (hour, min) => Except.ok (Date 0 1 1 hour min 0 0 UTC)
      | none => Except.error "failed to parse ReceiptPurchaseTime" := by
  simp only [ReceiptPurchaseTime.UnmarshalJSON, parseClock_eq]
  cases readClockLiteral (Trim b "\"") with
  | none => rfl
  | some p => rfl

/-- The purchase-date parser in terms of the date literal it reads. -/
theorem UnmarshalJSON_date_eq (b : String) :
    ReceiptPurchaseDate.UnmarshalJSON b =
      match readDateLiteral (Trim b "\"") with
      | some (year, month, day) => Except.ok (Date year month day 0 0 0 0 UTC)
      | none => Except.error "failed to parse ReceiptPurchaseDate" := by
  simp only [ReceiptPurchaseDate.UnmarshalJSON, parseDate_eq]
  cases readDateLiteral (Trim b "\"") with
  | none => rfl
  | some p => rfl

/-- The year, month and day read from a date literal name a day of the calendar. -/
theorem readDateLiteral_range (s : String) (year month day : Int)
    (h : readDateLiteral s = some (year, month, day)) :
    1 ≤ month ∧ month ≤ 12 ∧ 1 ≤ day ∧ day ≤ calendarDays year month := by
  obtain ⟨l⟩ := s
  rcases l with _ | ⟨y1, _ | ⟨y2, _ | ⟨y3, _ | ⟨y4, _ | ⟨s1, _ | ⟨m1, _ | ⟨m2, _ | ⟨s2,
    _ | ⟨d1, _ | ⟨d2, _ | ⟨x, rest⟩⟩⟩⟩⟩⟩⟩⟩⟩⟩⟩ <;>
    try (simp [readDateLiteral] at h; done)
  simp only [readDateLiteral] at h
  cases hY : decimal [y1, y2, y3, y4] <;> cases hM : decimal [m1, m2] <;>
    cases hD : decimal [d1, d2] <;> simp only [hY, hM, hD] at h <;> try cases h
  split_ifs at h with hc
  simp only [Option.some.injEq, Prod.mk.injEq] at h
  obtain ⟨rfl, rfl, rfl⟩ := h
  exact ⟨hc.2.2.1, hc.2.2.2.1, hc.2.2.2.2.1, hc.2.2.2.2.2⟩

/-- C12, as stated, fails: the input `"7:52"` (one digit of hour) is not an
`HH:MM` literal, yet `ReceiptPurchaseTime.UnmarshalJSON` accepts it and stores
07:52; so it is not true that parsing succeeds only on `HH:MM` literals. -/
theorem C12_counterexample_one_digit_hour :
    readHHMM (Trim "\"7:52\"" "\"") = none
    ∧ ReceiptPurchaseTime.UnmarshalJSON "\"7:52\"" = Except.ok (Date 0 1 1 7 52 0 0 UTC)
    ∧ (Date 0 1 1 7 52 0 0 UTC).Hour = 7 ∧ (Date 0 1 1 7 52 0 0 UTC).Minute = 52
    ∧ ¬ (∀ (b : String) (t : ReceiptPurchaseTime),
          ReceiptPurchaseTime.UnmarshalJSON b = Except.ok t →
          ∃ p, readHHMM (Trim b "\"") = some p) := by
  have h1 : readHHMM (Trim "\"7:52\"" "\"") = none := by decide
  have h2 : ReceiptPurchaseTime.UnmarshalJSON "\"7:52\"" =
      Except.ok (Date 0 1 1 7 52 0 0 UTC) := by decide
  refine ⟨h1, h2, by decide, by decide, ?_⟩
  intro hall
  obtain ⟨p, hp⟩ := hall _ _ h2
  rw [h1] at hp
  cases hp

/-- C12, amended: `ReceiptPurchaseTime.UnmarshalJSON` succeeds exactly when its
input, without the double quotes around it, is one or two digits of hour, a
colon and two digits of minute, with the hour in 0..23 and the minute in 00..59;
on every other input it fails with an error. Every 24-hour `HH:MM` literal is
such an input, and so is the same with a one-digit hour (`H:MM`). On success the
stored time has the hour and the minute written, and zero seconds and
nanoseconds. -/
theorem C12_UnmarshalJSON_time_accepts_clock_literals (b : String) :
    (ReceiptPurchaseTime.UnmarshalJSON b =
      match readClockLiteral (Trim b "\"") with
      | some (hour, min) => Except.ok (Date 0 1 1 hour min 0 0 UTC)
      | none => Except.error "failed to parse ReceiptPurchaseTime")
    ∧ (∀ hour min : Int, readHHMM (Trim b "\"") = some (hour, min) →
        ReceiptPurchaseTime.UnmarshalJSON b = Except.ok (Date 0 1 1 hour min 0 0 UTC))
    ∧ (∀ t : ReceiptPurchaseTime, ReceiptPurchaseTime.UnmarshalJSON b = Except.ok t →
        ∃ hour min : Int, readClockLiteral (Trim b "\"") = some (hour, min) ∧
          0 ≤ hour ∧ hour ≤ 23 ∧ 0 ≤ min ∧ min ≤ 59 ∧
          t.Hour = hour ∧ t.Minute = min ∧ t.Second = 0 ∧ t.Nanosecond = 0)
    ∧ (readClockLiteral (Trim b "\"") = none →
        ReceiptPurchaseTime.UnmarshalJSON b =
          Except.error "failed to parse ReceiptPurchaseTime") := by
  refine ⟨UnmarshalJSON_time_eq b, ?_, ?_, ?_⟩
  · intro hour min h
    rw [UnmarshalJSON_time_eq, readClockLiteral_of_readHHMM _ _ h]
  · intro t ht
    rw [UnmarshalJSON_time_eq] at ht
    cases hr : readClockLiteral (Trim b "\"") with
    | none => rw [hr] at ht; cases ht
    | some p =>
      obtain ⟨hour, min⟩ := p
      rw [hr] at ht
      simp only [Except.ok.injEq] at ht
      obtain ⟨h0, h23, m0, m59⟩ := readClockLiteral_range _ _ _ hr
      have hf := Date_fields 0 1 1 hour min 0 0 UTC (by decide) (by decide) ⟨h0, by omega⟩
        ⟨m0, by omega⟩ (by decide) (by decide)
      rw [ht] at hf
      exact ⟨hour, min, rfl, h0, h23, m0, m59, hf.2.2.2.1, hf.2.2.2.2.1, hf.2.2.2.2.2.1,
        hf.2.2.2.2.2.2.1⟩
  · intro h
    rw [UnmarshalJSON_time_eq, h]

/-- C12, amended, at the inputs `"13:01"` and `"7:52"`: both are accepted, with
the hour and minute written. -/
theorem C12_UnmarshalJSON_time_witness :
    readHHMM (Trim "\"13:01\"" "\"") = some (13, 1)
    ∧ ReceiptPurchaseTime.UnmarshalJSON "\"13:01\"" = Except.ok (Date 0 1 1 13 1 0 0 UTC)
    ∧ ReceiptPurchaseTime.UnmarshalJSON "\"7:52\"" =
        (match readClockLiteral (Trim "\"7:52\"" "\"") with
          | some (hour, min) => Except.ok (Date 0 1 1 hour min 0 0 UTC)
          | none => Except.error "failed to parse ReceiptPurchaseTime")
    ∧ readClockLiteral (Trim "\"7:52\"" "\"") = some (7, 52)
    ∧ ReceiptPurchaseTime.UnmarshalJSON "\"1:5\"" =
        Except.error "failed to parse ReceiptPurchaseTime" :=
  ⟨by decide,
   (C12_UnmarshalJSON_time_accepts_clock_literals "\"13:01\"").2.1 13 1 (by decide),
   (C12_UnmarshalJSON_time_accepts_clock_literals "\"7:52\"").1,
   by decide,
   (C12_UnmarshalJSON_time_accepts_clock_literals "\"1:5\"").2.2.2 (by decide)⟩

/-- C13: `ReceiptPurchaseDate.UnmarshalJSON` succeeds exactly when its input,
without the double quotes around it, is a `YYYY-MM-DD` literal naming a real
calendar date; on every other input, `"2022-01-0"` among them, it fails with an
error; and on success the year, the month and the day of the month of the stored
date are those written in the literal. -/
theorem C13_UnmarshalJSON_date_accepts_only_calendar_dates (b : String) :
    (ReceiptPurchaseDate.UnmarshalJSON b =
      match readDateLiteral (Trim b "\"") with
      | some (year, month, day) => Except.ok (Date year month day 0 0 0 0 UTC)
      | none => Except.error "failed to parse ReceiptPurchaseDate")
    ∧ (∀ t : ReceiptPurchaseDate, ReceiptPurchaseDate.UnmarshalJSON b = Except.ok t →
        ∃ year month day : Int, readDateLiteral (Trim b "\"") = some (year, month, day) ∧
          t.Year = year ∧ t.Month = month ∧ t.Day = day)
    ∧ (readDateLiteral (Trim b "\"") = none →
        ReceiptPurchaseDate.UnmarshalJSON b =
          Except.error "failed to parse ReceiptPurchaseDate")
    ∧ readDateLiteral (Trim "\"2022-01-0\"" "\"") = none
    ∧ ReceiptPurchaseDate.UnmarshalJSON "\"2022-01-0\"" =
        Except.error "failed to parse ReceiptPurchaseDate"
    ∧ ReceiptPurchaseDate.UnmarshalJSON "\"2023-02-29\"" =
        Except.error "failed to parse ReceiptPurchaseDate"
    ∧ ReceiptPurchaseDate.UnmarshalJSON "\"2022-01-01\"" =
        Except.ok (Date 2022 1 1 0 0 0 0 UTC) := by
  refine ⟨UnmarshalJSON_date_eq b, ?_, ?_, by decide, by decide, by decide, by decide⟩
  · intro t ht
    rw [UnmarshalJSON_date_eq] at ht
    cases hr : readDateLiteral (Trim b "\"") with
    | none => rw [hr] at ht; cases ht
    | some p =>
      obtain ⟨year, month, day⟩ := p
      rw [hr] at ht
      simp only [Except.ok.injEq] at ht
      obtain ⟨m1, m12, d1, dn⟩ := readDateLiteral_range _ _ _ _ hr
      have hf := Date_fields year month day 0 0 0 0 UTC ⟨m1, m12⟩
        ⟨d1, by rw [daysIn_eq_calendarDays year month ⟨m1, m12⟩]; exact dn⟩
        (by decide) (by decide) (by decide) (by decide)
      rw [ht] at hf
      exact ⟨year, month, day, rfl, hf.1, hf.2.1, hf.2.2.1⟩
  · intro h
    rw [UnmarshalJSON_date_eq, h]

/-! ## The handlers and the receipt store -/

/-- A query never changes the store. -/
theorem GetPoints_store (u : UnicodeTables) (indef : F64 → Int) (c : Context)
    (receiptMap : ReceiptMap) : (GetPoints u indef c receiptMap).2 = receiptMap := by
  cases h : receiptMap c.Param <;> simp only [GetPoints, h]

/-- Any number of queries leaves the store as it was. -/
theorem GetPoints_iterate_store (u : UnicodeTables) (indef : F64 → Int) (c : Context)
    (receiptMap : ReceiptMap) (n : Nat) :
    Nat.iterate (fun m => (GetPoints u indef c m).2) n receiptMap = receiptMap := by
  induction n with
  | zero => rfl
  | succ k ih => rw [Function.iterate_succ_apply, GetPoints_store, ih]

/-- The answer of a query on a key that the store does not hold. -/
theorem GetPoints_none (u : UnicodeTables) (indef : F64 → Int) (c : Context)
    (receiptMap : ReceiptMap) (h : receiptMap c.Param = none) :
    GetPoints u indef c receiptMap =
      (⟨StatusBadRequest, Body.error "Invalid ID"⟩, receiptMap) := by
  simp only [GetPoints, h]

/-- The answer of a query on a stored key. -/
theorem GetPoints_some (u : UnicodeTables) (indef : F64 → Int) (c : Context)
    (receiptMap : ReceiptMap) (r : Receipt) (h : receiptMap c.Param = some r) :
    GetPoints u indef c receiptMap =
      (⟨StatusOK, Body.points (CalculatePoints u indef r)⟩, receiptMap) := by
  simp only [GetPoints, h]

/-- C14: when `PostReceipt` binds the payload to the receipt `r` and answers with
status 200 and the key `k`, then in the store it leaves, `GetPoints` on `k`
answers with status 200 and the points `CalculatePoints(r)`; this holds for every
store the submission starts from, also one that already holds the key. -/
theorem C14_PostReceipt_GetPoints_round_trip (u : UnicodeTables) (indef : F64 → Int)
    (receiptId k : String) (c q : Context) (receiptMap : ReceiptMap) (r : Receipt)
    (hr : c.BindJSON = Except.ok r)
    (hk : (PostReceipt receiptId c receiptMap).1.body = Body.id k)
    (hq : q.Param = k) :
    (PostReceipt receiptId c receiptMap).1.status = 200
    ∧ (PostReceipt receiptId c receiptMap).2 k = some r
    ∧ (GetPoints u indef q (PostReceipt receiptId c receiptMap).2).1.status = 200
    ∧ (GetPoints u indef q (PostReceipt receiptId c receiptMap).2).1.body =
        Body.points (CalculatePoints u indef r) := by
  have hp : PostReceipt receiptId c receiptMap =
      (⟨StatusOK, Body.id receiptId⟩,
        fun key => if key = receiptId then some r else receiptMap key) := by
    simp only [PostReceipt, hr]
  rw [hp] at hk ⊢
  simp only [Body.id.injEq] at hk
  subst hk
  have hs : (fun key => if key = receiptId then some r else receiptMap key) q.Param = some r := by
    simp only [hq, if_true]
  rw [GetPoints_some u indef q _ r hs]
  exact ⟨rfl, by simp, rfl, rfl⟩

/-- C14 at the first receipt of the tests, submitted to the empty store. -/
theorem C14_round_trip_witness :
    (GetPoints latin1Tables amd64Indefinite ⟨Except.error "", "7fb1377b"⟩
        (PostReceipt "7fb1377b" ⟨Except.ok testReceipt0, ""⟩ (fun _ => none)).2).1.status = 200
    ∧ (GetPoints latin1Tables amd64Indefinite ⟨Except.error "", "7fb1377b"⟩
        (PostReceipt "7fb1377b" ⟨Except.ok testReceipt0, ""⟩ (fun _ => none)).2).1.body =
          Body.points (CalculatePoints latin1Tables amd64Indefinite testReceipt0) :=
  (C14_PostReceipt_GetPoints_round_trip latin1Tables amd64Indefinite "7fb1377b" "7fb1377b"
    ⟨Except.ok testReceipt0, ""⟩ ⟨Except.error "", "7fb1377b"⟩ (fun _ => none) testReceipt0
    rfl rfl rfl).2.2

/-- C15: on a key that the store does not hold, `GetPoints` answers with status
400 and the error "Invalid ID", which carries no points; and whenever `GetPoints`
answers with points, the key is stored, the points are those of the stored
receipt and the status is 200. -/
theorem C15_GetPoints_unknown_key (u : UnicodeTables) (indef : F64 → Int) (c : Context)
    (receiptMap : ReceiptMap) :
    (receiptMap c.Param = none →
      (GetPoints u indef c receiptMap).1.status = 400 ∧
      (GetPoints u indef c receiptMap).1.body = Body.error "Invalid ID" ∧
      ∀ p : Int, (GetPoints u indef c receiptMap).1.body ≠ Body.points p)
    ∧ (∀ p : Int, (GetPoints u indef c receiptMap).1.body = Body.points p →
        ∃ r : Receipt, receiptMap c.Param = some r ∧ p = CalculatePoints u indef r ∧
          (GetPoints u indef c receiptMap).1.status = 200) := by
  constructor
  · intro h
    rw [GetPoints_none u indef c receiptMap h]
    refine ⟨rfl, rfl, ?_⟩
    intro p hp
    cases hp
  · intro p hp
    cases h : receiptMap c.Param with
    | none =>
      rw [GetPoints_none u indef c receiptMap h] at hp
      cases hp
    | some r =>
      rw [GetPoints_some u indef c receiptMap r h] at hp ⊢
      simp only [Body.points.injEq] at hp
      exact ⟨r, rfl, hp.symm, rfl⟩

/-- C15 at the query of the tests: the key "1234" in the empty store. -/
theorem C15_unknown_key_witness :
    (GetPoints latin1Tables amd64Indefinite ⟨Except.error "", "1234"⟩ (fun _ => none)).1.status
        = 400
    ∧ (GetPoints latin1Tables amd64Indefinite ⟨Except.error "", "1234"⟩ (fun _ => none)).1.body
        = Body.error "Invalid ID" :=
  ⟨((C15_GetPoints_unknown_key latin1Tables amd64Indefinite ⟨Except.error "", "1234"⟩
      (fun _ => none)).1 rfl).1,
   ((C15_GetPoints_unknown_key latin1Tables amd64Indefinite ⟨Except.error "", "1234"⟩
      (fun _ => none)).1 rfl).2.1⟩

/-- C16: when binding the payload fails, `PostReceipt` answers with status 400
and the text of the error, returns no key, and leaves the store exactly as it
was: every key is mapped as before. -/
theorem C16_PostReceipt_failed_parse (receiptId : String) (c : Context)
    (receiptMap : ReceiptMap) (err : String) (h : c.BindJSON = Except.error err) :
    (PostReceipt receiptId c receiptMap).1.status = 400
    ∧ (PostReceipt receiptId c receiptMap).1.body = Body.error err
    ∧ (∀ k : String, (PostReceipt receiptId c receiptMap).1.body ≠ Body.id k)
    ∧ (PostReceipt receiptId c receiptMap).2 = receiptMap := by
  have hp : PostReceipt receiptId c receiptMap =
      (⟨StatusBadRequest, Body.error err⟩, receiptMap) := by
    simp only [PostReceipt, h]
  rw [hp]
  refine ⟨rfl, rfl, ?_, rfl⟩
  intro k hk
  cases hk

/-- C16 at a payload whose purchase date does not parse, submitted to a store
that holds one receipt. -/
theorem C16_failed_parse_witness :
    ReceiptPurchaseDate.UnmarshalJSON "\"2022-01-0\"" =
        Except.error "failed to parse ReceiptPurchaseDate"
    ∧ (PostReceipt "7fb1377b" ⟨Except.error "failed to parse ReceiptPurchaseDate", ""⟩
        (fun key => if key = "0" then some testReceipt0 else none)).1.status = 400
    ∧ (PostReceipt "7fb1377b" ⟨Except.error "failed to parse ReceiptPurchaseDate", ""⟩
        (fun key => if key = "0" then some testReceipt0 else none)).2 =
          (fun key => if key = "0" then some testReceipt0 else none) :=
  ⟨by decide,
   (C16_PostReceipt_failed_parse "7fb1377b"
      ⟨Except.error "failed to parse ReceiptPurchaseDate", ""⟩
      (fun key => if key = "0" then some testReceipt0 else none)
      "failed to parse ReceiptPurchaseDate" rfl).1,
   (C16_PostReceipt_failed_parse "7fb1377b"
      ⟨Except.error "failed to parse ReceiptPurchaseDate", ""⟩
      (fun key => if key = "0" then some testReceipt0 else none)
      "failed to parse ReceiptPurchaseDate" rfl).2.2.2⟩

/-- C17: `GetPoints` leaves the store unchanged, so after any number of queries
the store is still the same and a query answers as the first one did; on a stored
key every query answers with status 200 and the points of the stored receipt. -/
theorem C17_GetPoints_leaves_store_unchanged (u : UnicodeTables) (indef : F64 → Int)
    (c : Context) (receiptMap : ReceiptMap) :
    (GetPoints u indef c receiptMap).2 = receiptMap
    ∧ (∀ n : Nat,
        Nat.iterate (fun m => (GetPoints u indef c m).2) n receiptMap = receiptMap ∧
        (GetPoints u indef c
          (Nat.iterate (fun m => (GetPoints u indef c m).2) n receiptMap)).1 =
            (GetPoints u indef c receiptMap).1)
    ∧ (∀ r : Receipt, receiptMap c.Param = some r → ∀ n : Nat,
        (GetPoints u indef c
          (Nat.iterate (fun m => (GetPoints u indef c m).2) n receiptMap)).1.status = 200 ∧
        (GetPoints u indef c
          (Nat.iterate (fun m => (GetPoints u indef c m).2) n receiptMap)).1.body =
            Body.points (CalculatePoints u indef r)) := by
  refine ⟨GetPoints_store u indef c receiptMap, ?_, ?_⟩
  · intro n
    rw [GetPoints_iterate_store]
    exact ⟨rfl, rfl⟩
  · intro r hr n
    rw [GetPoints_iterate_store, GetPoints_some u indef c receiptMap r hr]
    exact ⟨rfl, rfl⟩

/-! ## Absent and empty item lists -/

/-- C18: the receipt with the item list absent (the nil slice) and the same
receipt with an empty item list get the same value from each of the seven rules
and from `CalculatePoints`, and rules 4 and 5 give 0 on both. -/
theorem C18_nil_and_empty_items_equivalent (u : UnicodeTables) (indef : F64 → Int)
    (r : Receipt) :
    CalculateRetailerNamePoints u { r with Items := none } =
        CalculateRetailerNamePoints u { r with Items := some [] }
    ∧ AddRoundDollarPoints { r with Items := none } =
        AddRoundDollarPoints { r with Items := some [] }
    ∧ AddQuarterDollarPoints { r with Items := none } =
        AddQuarterDollarPoints { r with Items := some [] }
    ∧ CalculatePurchaseItemsPoints { r with Items := none } =
        CalculatePurchaseItemsPoints { r with Items := some [] }
    ∧ CalculateItemDescriptionPoints indef { r with Items := none } =
        CalculateItemDescriptionPoints indef { r with Items := some [] }
    ∧ AddOddPurchaseDayPoints { r with Items := none } =
        AddOddPurchaseDayPoints { r with Items := some [] }
    ∧ AddPurchaseTimePoints { r with Items := none } =
        AddPurchaseTimePoints { r with Items := some [] }
    ∧ CalculatePoints u indef { r with Items := none } =
        CalculatePoints u indef { r with Items := some [] }
    ∧ CalculatePurchaseItemsPoints { r with Items := none } = 0
    ∧ CalculatePurchaseItemsPoints { r with Items := some [] } = 0
    ∧ CalculateItemDescriptionPoints indef { r with Items := none } = 0
    ∧ CalculateItemDescriptionPoints indef { r with Items := some [] } = 0 := by
  have h4n : CalculatePurchaseItemsPoints { r with Items := none } = 0 := rfl
  have h4e : CalculatePurchaseItemsPoints { r with Items := some [] } = 0 := by
    simp [CalculatePurchaseItemsPoints]
  have h5n : CalculateItemDescriptionPoints indef { r with Items := none } = 0 := rfl
  have h5e : CalculateItemDescriptionPoints indef { r with Items := some [] } = 0 := rfl
  refine ⟨rfl, rfl, rfl, by rw [h4n, h4e], by rw [h5n, h5e], rfl, rfl, ?_, h4n, h4e, h5n, h5e⟩
  simp only [CalculatePoints, h4n, h4e, h5n, h5e]
  rfl

/-! ## Rule 7 reads the clock only -/

/-- C19: two receipts whose purchase times have the same hour, minute, second
and nanosecond get the same value from `AddPurchaseTimePoints`, whatever the
year, month and day of the two purchase times. -/
theorem C19_AddPurchaseTimePoints_ignores_date (r1 r2 : Receipt)
    (hh : r1.PurchaseTime.Hour = r2.PurchaseTime.Hour)
    (hm : r1.PurchaseTime.Minute = r2.PurchaseTime.Minute)
    (hs : r1.PurchaseTime.Second = r2.PurchaseTime.Second)
    (hn : r1.PurchaseTime.Nanosecond = r2.PurchaseTime.Nanosecond) :
    AddPurchaseTimePoints r1 = AddPurchaseTimePoints r2 := by
  rw [purchaseTimePoints_eq, purchaseTimePoints_eq, hh, hm, hs, hn]

/-- C19 at 15:00 on January 1 of year 0 (what parsing "15:00" stores) and 15:00
on 2023-06-07: the dates differ, the clock readings agree, and rule 7 gives the
same 10 points. -/
theorem C19_ignores_date_witness :
    (Date 0 1 1 15 0 0 0 UTC).Year ≠ (Date 2023 6 7 15 0 0 0 UTC).Year
    ∧ (Date 0 1 1 15 0 0 0 UTC).Month ≠ (Date 2023 6 7 15 0 0 0 UTC).Month
    ∧ (Date 0 1 1 15 0 0 0 UTC).Day ≠ (Date 2023 6 7 15 0 0 0 UTC).Day
    ∧ AddPurchaseTimePoints { testReceipt0 with PurchaseTime := Date 0 1 1 15 0 0 0 UTC } =
        AddPurchaseTimePoints { testReceipt0 with PurchaseTime := Date 2023 6 7 15 0 0 0 UTC }
    ∧ AddPurchaseTimePoints { testReceipt0 with PurchaseTime := Date 0 1 1 15 0 0 0 UTC } = 10 :=
  ⟨by decide, by decide, by decide,
   C19_AddPurchaseTimePoints_ignores_date
     { testReceipt0 with PurchaseTime := Date 0 1 1 15 0 0 0 UTC }
     { testReceipt0 with PurchaseTime := Date 2023 6 7 15 0 0 0 UTC }
     (by decide) (by decide) (by decide) (by decide),
   by decide⟩

/-! ## Rule 5 measures bytes -/

/-- The helper `runeLen` is the size of the UTF-8 encoding of a code point. -/
theorem runeLen_eq_utf8Size (c : Char) : runeLen c = c.utf8Size := by
  have h : c.toNat = c.val.toBitVec.toNat := rfl
  have e : ∀ (n : Nat) (p : n < UInt32.size), (UInt32.ofNatCore n p).toBitVec.toNat = n :=
    fun _ _ => rfl
  simp only [runeLen, Char.utf8Size, h, UInt32.le_def, BitVec.le_def, e]
  split_ifs <;> first | rfl | omega

/-- Go `len` on a string is the size in bytes of its UTF-8 encoding. -/
theorem len_eq_utf8ByteSize (s : String) : len s = (s.utf8ByteSize : Int) := by
  obtain ⟨l⟩ := s
  simp only [len, String.utf8ByteSize]
  congr 1
  induction l with
  | nil => rfl
  | cons c cs ih =>
    simp only [List.map_cons, List.sum_cons, String.utf8ByteSize.go, ih, runeLen_eq_utf8Size]
    omega

set_option exponentiation.threshold 5000 in
/-- C20: the length that rule 5 tests is the number of bytes of the UTF-8
encoding of the description trimmed of white space, not its number of
characters. An item with a non-empty description adds
`int(math.Ceil(price * 0.2))` when that number of bytes is a multiple of 3 and
adds 0 when it is not, and a receipt holding just that item scores the same on
`CalculateItemDescriptionPoints`. The description "éa" has 2 characters and 3
bytes, and the item with that description at 10.00 earns 2 points. -/
theorem C20_description_length_counts_bytes (indef : F64 → Int) (item : Item)
    (hne : item.ShortDescription ≠ "") :
    len (TrimSpace item.ShortDescription) =
        ((TrimSpace item.ShortDescription).utf8ByteSize : Int)
    ∧ ((TrimSpace item.ShortDescription).utf8ByteSize % 3 = 0 →
        itemDescriptionPoints indef item =
          F64.toInt indef (F64.Ceil (F64.mul item.Price (F64.ofFrac 1 5))))
    ∧ ((TrimSpace item.ShortDescription).utf8ByteSize % 3 ≠ 0 →
        itemDescriptionPoints indef item = 0)
    ∧ (∀ r : Receipt, CalculateItemDescriptionPoints indef { r with Items := some [item] } =
        itemDescriptionPoints indef item)
    ∧ (TrimSpace "éa").length = 2
    ∧ (TrimSpace "éa").utf8ByteSize = 3
    ∧ itemDescriptionPoints indef ⟨"éa", F64.ofFrac 1000 100⟩ = 2 := by
  have hlen := len_eq_utf8ByteSize (TrimSpace item.ShortDescription)
  refine ⟨hlen, ?_, ?_, ?_, by decide, by decide, ?_⟩
  · intro h
    rw [itemDescriptionPoints_eq, if_pos ⟨hne, by rw [hlen]; omega⟩]
  · intro h
    rw [itemDescriptionPoints_eq, if_neg (fun hc => h (by have := hc.2; rw [hlen] at this; omega))]
  · intro r
    rfl
  · rw [itemDescriptionPoints_eq, if_pos (by decide)]
    have hc : F64.Ceil (F64.mul (F64.ofFrac 1000 100) (F64.ofFrac 1 5)) =
        F64.finite (2 * F64.one) := by decide
    simp only [hc]
    exact F64.toInt_whole indef 2 (by decide) (by decide)

set_option exponentiation.threshold 5000 in
/-- C20 at the item "éa" at 10.00: 2 characters, 3 bytes, and 2 points on
amd64. -/
theorem C20_counts_bytes_witness :
    ("éa" : String) ≠ ""
    ∧ (TrimSpace "éa").length % 3 ≠ 0
    ∧ (TrimSpace "éa").utf8ByteSize % 3 = 0
    ∧ itemDescriptionPoints amd64Indefinite ⟨"éa", F64.ofFrac 1000 100⟩ =
        F64.toInt amd64Indefinite (F64.Ceil (F64.mul (F64.ofFrac 1000 100) (F64.ofFrac 1 5)))
    ∧ F64.toInt amd64Indefinite (F64.Ceil (F64.mul (F64.ofFrac 1000 100) (F64.ofFrac 1 5))) = 2
    ∧ CalculateItemDescriptionPoints amd64Indefinite
        { testReceipt0 with Items := some [⟨"éa", F64.ofFrac 1000 100⟩] } = 2 :=
  ⟨by decide, by decide, by decide,
   (C20_description_length_counts_bytes amd64Indefinite ⟨"éa", F64.ofFrac 1000 100⟩
      (by decide)).2.1 (by decide),
   by decide, by decide⟩

end ReceiptProcessor
